import Mathlib

/-!
# Taskendar: calendar grid, task triage and password policy

A shallow embedding of the pure logic of the Taskendar client
(`App.jsx`, `sidebar.jsx`, `auth.jsx`, `dayModal.jsx`) together with the
platform functions it calls (ECMA-262 `Date`, the `date-fns` helpers,
`Array.prototype.sort`, `Math.round` on doubles).
-/

namespace Taskendar

/-! ## ECMA-262 day arithmetic (section "Time Values and Time Range") -/

/-- Milliseconds per day (`msPerDay`). -/
def msPerDay : Int := 86400000

/-- Milliseconds per hour (`millisecondsInHour` of date-fns). -/
def millisecondsInHour : Int := 3600000

/-- ECMA-262 `DayFromYear(y)`: the day number of the first day of year `y`. -/
def dayFromYear (y : Int) : Int :=
  365 * (y - 1970) + (y - 1969) / 4 - (y - 1901) / 100 + (y - 1601) / 400

/-- ECMA-262 `DaysInYear(y)`. -/
def daysInYear (y : Int) : Int :=
  if y % 4 ≠ 0 then 365
  else if y % 100 ≠ 0 then 366
  else if y % 400 ≠ 0 then 365
  else 366

/-- ECMA-262 `InLeapYear`, as 0 or 1, for a year. -/
def inLeapYear (y : Int) : Int :=
  if daysInYear y = 366 then 1 else 0

/-- ECMA-262 `YearFromTime` on day numbers: the largest `y` with
`dayFromYear y ≤ n`, computed from the mean Gregorian year length and one
correction step. -/
def yearFromDay (n : Int) : Int :=
  let y := 1970 + (400 * n) / 146097
  if n < dayFromYear y then y - 1
  else if dayFromYear (y + 1) ≤ n then y + 1
  else y

/-- ECMA-262 `DayWithinYear`. -/
def dayWithinYear (n : Int) : Int :=
  n - dayFromYear (yearFromDay n)

/-- Day-within-year on which month `m` (0 = January) starts, for leap flag
`l`; the thresholds of ECMA-262 `MonthFromTime`. -/
def monthStartDay (m : Int) (l : Int) : Int :=
  if m ≤ 0 then 0
  else if m = 1 then 31
  else if m = 2 then 59 + l
  else if m = 3 then 90 + l
  else if m = 4 then 120 + l
  else if m = 5 then 151 + l
  else if m = 6 then 181 + l
  else if m = 7 then 212 + l
  else if m = 8 then 243 + l
  else if m = 9 then 273 + l
  else if m = 10 then 304 + l
  else 334 + l

/-- ECMA-262 `MonthFromTime` on a day-within-year `d` with leap flag `l`. -/
def monthOfYearDay (d : Int) (l : Int) : Int :=
  if d < 31 then 0
  else if d < 59 + l then 1
  else if d < 90 + l then 2
  else if d < 120 + l then 3
  else if d < 151 + l then 4
  else if d < 181 + l then 5
  else if d < 212 + l then 6
  else if d < 243 + l then 7
  else if d < 273 + l then 8
  else if d < 304 + l then 9
  else if d < 334 + l then 10
  else 11

/-- ECMA-262 `MonthFromTime` on day numbers (0 = January). -/
def monthFromDay (n : Int) : Int :=
  monthOfYearDay (dayWithinYear n) (inLeapYear (yearFromDay n))

/-- ECMA-262 `DateFromTime` on day numbers (1-based day of the month). -/
def dateFromDay (n : Int) : Int :=
  dayWithinYear n - monthStartDay (monthFromDay n) (inLeapYear (yearFromDay n)) + 1

/-- ECMA-262 `WeekDay` on day numbers (0 = Sunday; 1970-01-01 is a Thursday). -/
def weekDay (n : Int) : Int :=
  (n + 4) % 7

/-- ECMA-262 `MakeDay(year, month, date)` for a month index in `0..11`. -/
def makeDay (y : Int) (m : Int) (dt : Int) : Int :=
  dayFromYear y + monthStartDay m (inLeapYear y) + dt - 1

/-! ## JavaScript `Date` in local time -/

/-- A JavaScript `Date` read in local time: the local calendar day
(days since 1970-01-01) and the milliseconds elapsed since local midnight. The
local-time methods of `Date` work on these two readings; every local day is taken to
begin at a midnight that exists (no time-zone transition at 00:00). -/
structure LocalDate where
  day : Int
  ms : Int
  deriving DecidableEq, Repr

/-- The time value `+date`, in local milliseconds. -/
def LocalDate.time (d : LocalDate) : Int :=
  d.day * msPerDay + d.ms

/-- JavaScript `Date.prototype.getFullYear`. -/
def LocalDate.getFullYear (d : LocalDate) : Int := yearFromDay d.day

/-- JavaScript `Date.prototype.getMonth`. -/
def LocalDate.getMonth (d : LocalDate) : Int := monthFromDay d.day

/-- JavaScript `Date.prototype.getDate`. -/
def LocalDate.getDate (d : LocalDate) : Int := dateFromDay d.day

/-- JavaScript `Date.prototype.getDay`. -/
def LocalDate.getDay (d : LocalDate) : Int := weekDay d.day

/-- JavaScript `Date.prototype.setDate(dt)`: `MakeDay(YearFromTime, MonthFromTime, dt)`
with the time within the day kept. -/
def LocalDate.setDate (d : LocalDate) (dt : Int) : LocalDate :=
  { d with day := makeDay d.getFullYear d.getMonth dt }

/-- JavaScript `Date.prototype.setHours(0, 0, 0, 0)`. -/
def LocalDate.setHoursZero (d : LocalDate) : LocalDate :=
  { d with ms := 0 }

/-! ## date-fns helpers used by the calendar -/

/-- date-fns `startOfMonth`: `setDate(1)` then `setHours(0,0,0,0)`. -/
def startOfMonth (date : LocalDate) : LocalDate :=
  (date.setDate 1).setHoursZero

/-- date-fns `startOfWeek` with the default `weekStartsOn = 0`. -/
def startOfWeek (date : LocalDate) : LocalDate :=
  let weekStartsOn : Int := 0
  let day := date.getDay
  let diff := (if day < weekStartsOn then 7 else 0) + day - weekStartsOn
  (date.setDate (date.getDate - diff)).setHoursZero

/-- date-fns `addDays`. -/
def addDays (date : LocalDate) (amount : Int) : LocalDate :=
  if amount = 0 then date else date.setDate (date.getDate + amount)

/-- The `while (+currentDate <= endTime)` loop of date-fns
`eachDayOfInterval` with step 1; `fuel` bounds the number of iterations. -/
def eachDayLoop : Nat → LocalDate → Int → List LocalDate
  | 0, _, _ => []
  | fuel + 1, currentDate, endTime =>
    if currentDate.time ≤ endTime then
      currentDate ::
        eachDayLoop fuel ((currentDate.setDate (currentDate.getDate + 1)).setHoursZero) endTime
    else []

/-- date-fns `eachDayOfInterval({start, end})` for `start ≤ end`; the loop
is given one unit of fuel for each day the interval can hold. -/
def eachDayOfInterval (start : LocalDate) (endDate : LocalDate) : List LocalDate :=
  let endTime := endDate.time
  let currentDate := start.setHoursZero
  eachDayLoop ((endTime - currentDate.time) / msPerDay + 1).toNat currentDate endTime

/-- The calendar grid of `App.jsx`, for the reference date `currentDate`. -/
def calendarDays (currentDate : LocalDate) : List LocalDate :=
  let monthStart := startOfMonth currentDate
  let startDate := startOfWeek monthStart
  let endDate := addDays startDate 41
  eachDayOfInterval startDate endDate

/-- The first cell of the grid, as a day number. -/
def gridStart (currentDate : LocalDate) : Int :=
  (startOfMonth currentDate).day - weekDay (startOfMonth currentDate).day

/-! ## Task records -/

/-- The JavaScript values a text, date or timestamp column can hold on the
client: absent (`undefined`), `null`, or a string. -/
inductive JsVal where
  | undefined
  | null
  | str (s : String)
  deriving DecidableEq, Repr

/-- JavaScript `ToBoolean`: only a non-empty string is truthy. -/
def JsVal.truthy : JsVal → Bool
  | JsVal.str s => s != ""
  | _ => false

/-- JavaScript `a || b`. -/
def JsVal.or (a b : JsVal) : JsVal :=
  if a.truthy then a else b

/-- The value is neither `null` nor `undefined`. -/
def JsVal.nonNull : JsVal → Bool
  | JsVal.str _ => true
  | _ => false

/-- A row of the `tasks` table as the client holds it. A backend row carries the
table's columns (`start_date`, `end_date`, `completed_at`, ...); `fetchTasks`
adds `startDate`, `endDate`, `completedAt`. The differently cased keys that
`fetchTasks` probes are fields of the same record. -/
structure Task where
  id : Nat
  title : String
  description : JsVal
  completed : Bool
  user_id : String
  start_date : JsVal
  end_date : JsVal
  completed_at : JsVal
  startDate : JsVal
  endDate : JsVal
  completedAt : JsVal
  startdate : JsVal
  enddate : JsVal
  completedat : JsVal
  deriving DecidableEq, Repr

/-! ## date-fns `format(day, 'yyyy-MM-dd')` -/

/-- JavaScript `Number.prototype.toString()` of a non-negative integer: its decimal digits. -/
def numberToString (n : Nat) : List Char :=
  Nat.toDigits 10 n

/-- JavaScript `String.prototype.padStart(targetLength, "0")`. -/
def padStart (s : List Char) (targetLength : Nat) : List Char :=
  List.replicate (targetLength - s.length) '0' ++ s

/-- date-fns `addLeadingZeros(number, targetLength)`. -/
def addLeadingZeros (number : Int) (targetLength : Nat) : List Char :=
  let sign := if number < 0 then ['-'] else []
  let output := padStart (numberToString number.natAbs) targetLength
  sign ++ output

/-- The `y` formatter of date-fns for the token `yyyy`. -/
def formatYear (date : LocalDate) : List Char :=
  let signedYear := date.getFullYear
  let year := if signedYear > 0 then signedYear else 1 - signedYear
  addLeadingZeros year 4

/-- date-fns `format(date, 'yyyy-MM-dd')`. -/
def formatYMD (date : LocalDate) : String :=
  String.mk (formatYear date ++ '-' :: (addLeadingZeros (date.getMonth + 1) 2 ++
    '-' :: addLeadingZeros date.getDate 2))

/-! ## `App.jsx`: calendar cells, fetch mapping, toggle, delete -/

/-- The filter of a calendar cell in `App.jsx` (`dayTasks`, before its sort). -/
def dayTasks (tasks : List Task) (day : LocalDate) : List Task :=
  let dayString := formatYMD day
  tasks.filter (fun task =>
    if task.endDate.truthy && task.endDate != JsVal.str "" then
      task.endDate == JsVal.str dayString
    else
      task.startDate == JsVal.str dayString)

/-- The object `fetchTasks` builds from one backend row. -/
def formatRow (task : Task) : Task :=
  { task with
    startDate := (task.start_date.or task.startDate).or task.startdate
    endDate := (task.end_date.or task.endDate).or task.enddate
    completedAt := (task.completed_at.or task.completedAt).or task.completedat }

/-- The value `formattedData` of `fetchTasks`: `(data || []).map(...)`; `none` is a null `data`. -/
def formattedData (data : Option (List Task)) : List Task :=
  (data.getD []).map formatRow

/-- A request sent to the `tasks` table: the two `update(...).eq('id', id)` calls of
`App.jsx` with the columns each one sets, the `delete().eq('id', id)` call and the
`insert([...])` call. -/
inductive TaskRequest where
  | updateCompletion (id : Nat) (completed : Bool) (completed_at : JsVal)
  | deleteById (id : Nat)
  | updateFields (id : Nat) (title : String) (start_date end_date description : JsVal)
  | insert (title : String) (start_date end_date description : JsVal) (user_id : String)
      (completed : Bool)
  deriving DecidableEq, Repr

/-- The handler `toggleTaskCompletion(taskId)` at current time `now`: the new local task list
and the request sent. `none` when no task has the id: `task.completed` then throws
before any state is set. `toISOString` is `Date.prototype.toISOString`. -/
def toggleTaskCompletion (toISOString : Int → String) (tasks : List Task) (taskId : Nat)
    (now : Int) : Option (List Task × TaskRequest) :=
  match tasks.find? (fun t => t.id == taskId) with
  | none => none
  | some task =>
    let newStatus := !task.completed
    let newTimestamp := if newStatus then JsVal.str (toISOString now) else JsVal.null
    some (tasks.map (fun t =>
        if t.id == taskId then { t with completed := newStatus, completedAt := newTimestamp }
        else t),
      TaskRequest.updateCompletion taskId newStatus newTimestamp)

/-- The handler `deleteTask(taskId)`: the new local task list and the request sent. -/
def deleteTask (tasks : List Task) (taskId : Nat) : List Task × TaskRequest :=
  (tasks.filter (fun t => t.id != taskId), TaskRequest.deleteById taskId)

/-- The data-model invariant on one task: `completedAt` is non-null exactly when
`completed` is true. -/
def completedAtInvariant (t : Task) : Prop :=
  t.completedAt.nonNull = true ↔ t.completed = true

/-! ## `sidebar.jsx` -/

/-- The largest time value of a JavaScript `Date` (`new Date(8640000000000000)`). -/
def maxTime : Int := 8640000000000000

/-- date-fns `differenceInHours(left, right)` with the default `trunc` rounding;
`none` is `NaN` (an Invalid Date on either side). -/
def differenceInHours (left right : Option Int) : Option Int :=
  match left, right with
  | some l, some r => some (Int.tdiv (l - r) millisecondsInHour)
  | _, _ => none

/-- The filter of `accomplishedList`. `parseISO` is date-fns `parseISO`, giving the
time value or `none` for an Invalid Date; `now` is `new Date()`. -/
def accomplishedFilter (parseISO : String → Option Int) (now : Int) (task : Task) : Bool :=
  if !task.completed then false
  else if task.completedAt.truthy then
    match task.completedAt with
    | JsVal.str s =>
      match differenceInHours (some now) (parseISO s) with
      | some hoursSinceCompletion => decide (hoursSinceCompletion < 24)
      | none => false
    | _ => true
  else true

/-- Value of a decimal digit character, `none` for any other character. -/
def digitValue (c : Char) : Option Nat :=
  if '0' ≤ c ∧ c ≤ '9' then some (c.toNat - '0'.toNat) else none

/-- Number of days of month `m` (1 = January) of year `y`. -/
def daysInMonth (y : Int) (m : Int) : Int :=
  if m = 12 then 31
  else monthStartDay m (inLeapYear y) - monthStartDay (m - 1) (inLeapYear y)

/-- A well-formed `yyyy-MM-dd` date string (four, two and two decimal digits naming a
day that exists), read as year, month (1-based) and day. -/
def parseYMD (s : String) : Option (Nat × Nat × Nat) :=
  match s.data.map digitValue with
  | [some y1, some y2, some y3, some y4, none, some m1, some m2, none, some d1, some d2] =>
    let y := 1000 * y1 + 100 * y2 + 10 * y3 + y4
    let m := 10 * m1 + m2
    let d := 10 * d1 + d2
    if s.data.get? 4 = some '-' ∧ s.data.get? 7 = some '-' ∧ 1 ≤ m ∧ m ≤ 12 ∧
        1 ≤ d ∧ (d : Int) ≤ daysInMonth y m then some (y, m, d)
    else none
  | _ => none

/-- The time value of `new Date(s)` for a string: a well-formed `yyyy-MM-dd` string
is the UTC midnight of that day (ECMA-262 date-only form); every other string is
left to the engine's parser `engine`, `none` being an Invalid Date. -/
def newDate (engine : String → Option Int) (s : String) : Option Int :=
  match parseYMD s with
  | some (y, m, d) => some (makeDay y ((m : Int) - 1) d * msPerDay)
  | none => engine s

/-- The value `dateA` of `sortFn`, as a time value (`none` for an Invalid Date):
`a.startDate ? new Date(a.startDate) : new Date(8640000000000000)`. -/
def sortDate (engine : String → Option Int) (startDate : JsVal) : Option Int :=
  if startDate.truthy then
    match startDate with
    | JsVal.str s => newDate engine s
    | _ => none
  else some maxTime

/-- The comparator `sortFn(a, b) = dateA - dateB`; `none` is `NaN`. -/
def sortFn (engine : String → Option Int) (a b : Task) : Option Int :=
  match sortDate engine a.startDate, sortDate engine b.startDate with
  | some dateA, some dateB => some (dateA - dateB)
  | _, _ => none

/-- The order `Array.prototype.sort` reads from a comparator (ECMA-262 `SortCompare`):
`a` may stay before `b` when the result is not positive, `NaN` counting as `+0`. -/
def sortLe {α : Type} (comparefn : α → α → Option Int) (a b : α) : Prop :=
  match comparefn a b with
  | some v => v ≤ 0
  | none => True

instance sortLeDecidable {α : Type} (comparefn : α → α → Option Int) :
    DecidableRel (sortLe comparefn) := fun a b => by
  unfold sortLe
  cases comparefn a b <;> infer_instance

/-- JavaScript `Array.prototype.sort(comparefn)`: ECMA-262 requires a stable sort, so for a
consistent comparator the result is the stable sorted arrangement, here computed
by insertion. -/
def arraySort {α : Type} (comparefn : α → α → Option Int) (l : List α) : List α :=
  List.insertionSort (sortLe comparefn) l

/-- The list `todoList` of the sidebar, after `todoList.sort(sortFn)`. -/
def todoList (engine : String → Option Int) (allTasks : List Task) : List Task :=
  arraySort (sortFn engine) (allTasks.filter (fun task => !task.completed))

/-- The list `accomplishedList` of the sidebar before it is sorted. -/
def accomplishedFiltered (parseISO : String → Option Int) (now : Int) (allTasks : List Task) :
    List Task :=
  allTasks.filter (accomplishedFilter parseISO now)

/-- The list `accomplishedList` of the sidebar, after `accomplishedList.sort(sortFn)`. -/
def accomplishedList (engine parseISO : String → Option Int) (now : Int)
    (allTasks : List Task) : List Task :=
  arraySort (sortFn engine) (accomplishedFiltered parseISO now allTasks)

/-! ### Completion percentage: IEEE-754 double arithmetic on non-negative values -/

/-- A non-negative finite double, as the value `m * 2 ^ e`. -/
structure Double where
  m : Nat
  e : Int
  deriving DecidableEq, Repr

/-- Halve `num / den` (by doubling `den`) until it is below `2 ^ 53`. -/
def scaleDown : Nat → Nat → Nat → Int → Nat × Nat × Int
  | 0, num, den, e => (num, den, e)
  | fuel + 1, num, den, e =>
    if num / den ≥ 2 ^ 53 then scaleDown fuel num (2 * den) (e + 1) else (num, den, e)

/-- Double `num / den` until it is at least `2 ^ 52`. -/
def scaleUp : Nat → Nat → Nat → Int → Nat × Nat × Int
  | 0, num, den, e => (num, den, e)
  | fuel + 1, num, den, e =>
    if num / den < 2 ^ 52 then scaleUp fuel (2 * num) den (e - 1) else (num, den, e)

/-- The double nearest to the rational `num / den` (`den > 0`), ties to even: the
rounding IEEE-754 applies to the exact result of `/` and `*`. The fuel covers the
whole exponent range of normal doubles. -/
def roundToDouble (num den : Nat) : Double :=
  if num = 0 then ⟨0, 0⟩
  else
    let (n1, d1, e1) := scaleDown 2200 num den 0
    let (n2, d2, e2) := scaleUp 2200 n1 d1 e1
    let q := n2 / d2
    let r := n2 % d2
    if 2 * r > d2 ∨ (2 * r = d2 ∧ q % 2 = 1) then ⟨q + 1, e2⟩ else ⟨q, e2⟩

/-- JavaScript `a / b` on two non-negative integers below `2 ^ 53`. -/
def Double.ofQuotient (a b : Nat) : Double :=
  roundToDouble a b

/-- JavaScript `x * k` for a non-negative integer `k` below `2 ^ 53`. -/
def Double.mulNat (x : Double) (k : Nat) : Double :=
  if x.e ≥ 0 then roundToDouble (x.m * k * 2 ^ x.e.toNat) 1
  else roundToDouble (x.m * k) (2 ^ (-x.e).toNat)

/-- JavaScript `Math.round(x)` for `x ≥ 0`: `floor(x + 1/2)`, computed exactly. -/
def mathRound (x : Double) : Nat :=
  if x.e ≥ 0 then x.m * 2 ^ x.e.toNat
  else (2 * x.m + 2 ^ (-x.e).toNat) / 2 ^ ((-x.e).toNat + 1)

/-- The value `percentage` of the sidebar. -/
def percentage (allTasks : List Task) : Nat :=
  let totalRelevant := allTasks.length
  let totalCompleted := (allTasks.filter (fun t => t.completed)).length
  if totalRelevant = 0 then 0
  else mathRound ((Double.ofQuotient totalCompleted totalRelevant).mulNat 100)

/-- The value the claim names: `100 * completed / total` rounded to the nearest
integer, halves rounded up. -/
def roundHalfUpPercent (completed total : Nat) : Nat :=
  (200 * completed + total) / (2 * total)

/-! ## Password policy (`auth.jsx` and `App.jsx`) -/

/-- JavaScript `String.prototype.length`: the number of UTF-16 code units. -/
def jsLength (s : String) : Nat :=
  (s.data.map (fun c => if c.toNat ≥ 65536 then 2 else 1)).sum

/-- JavaScript `RegExp.prototype.test` for a character class of code units below `U+10000`:
some character of the string satisfies the class. -/
def testClass (cls : Char → Bool) (s : String) : Bool :=
  s.data.any cls

/-- The class `[a-z]`. -/
def lowerClass (c : Char) : Bool := decide ('a' ≤ c ∧ c ≤ 'z')

/-- The class `[A-Z]`. -/
def upperClass (c : Char) : Bool := decide ('A' ≤ c ∧ c ≤ 'Z')

/-- The class `[0-9]`. -/
def digitClass (c : Char) : Bool := decide ('0' ≤ c ∧ c ≤ '9')

/-- The characters of the class `[!@#$%^&*(),.?":{}|<>]`; the double quote and the
two braces are given by code point (34, 123, 125). -/
def symbolChars : List Char :=
  ['!', '@', '#', '$', '%', '^', '&', '*', '(', ')', ',', '.', '?', Char.ofNat 34, ':',
    Char.ofNat 123, Char.ofNat 125, '|', '<', '>']

/-- The class `[!@#$%^&*(),.?":{}|<>]`. -/
def symbolClass (c : Char) : Bool := symbolChars.contains c

/-- One entry of the `requirements` array. -/
structure Requirement where
  text : String
  met : Bool
  deriving DecidableEq, Repr

namespace Auth

/-- The array `requirements` of `auth.jsx`, over the `password` state. -/
def requirements (password : String) : List Requirement :=
  [ ⟨"At least 6 characters", decide (jsLength password ≥ 6)⟩,
    ⟨"One lowercase letter", testClass lowerClass password⟩,
    ⟨"One uppercase letter", testClass upperClass password⟩,
    ⟨"One number", testClass digitClass password⟩,
    ⟨"One symbol (!@#$)", testClass symbolClass password⟩ ]

/-- The flag `isPasswordValid` of `auth.jsx`. -/
def isPasswordValid (password : String) : Bool :=
  (requirements password).all (fun req => req.met)

/-- The `view` state of the authentication screen. -/
inductive View where
  | signin
  | signup
  | forgot
  deriving DecidableEq, Repr

/-- A call made to the backend auth client. -/
inductive AuthCall where
  | resetPasswordForEmail (email : String)
  | signUp (email password : String)
  | signInWithPassword (email password : String)
  deriving DecidableEq, Repr

/-- What a run of `handleAuth` leaves behind: the backend calls made, in order, and
the final `message` state. -/
structure Outcome where
  calls : List AuthCall
  message : String
  deriving DecidableEq, Repr

/-- The handler `handleAuth` of `auth.jsx`. `backendError` is the `error.message` of the backend's
answer to the call made, `none` when the call succeeds. -/
def handleAuth (view : View) (email password confirmPassword : String)
    (backendError : Option String) : Outcome :=
  match view with
  | View.forgot =>
    match backendError with
    | some msg => ⟨[AuthCall.resetPasswordForEmail email], msg⟩
    | none =>
      ⟨[AuthCall.resetPasswordForEmail email], "Password reset link sent! Check your email."⟩
  | View.signup =>
    if password ≠ confirmPassword then ⟨[], "Passwords do not match!"⟩
    else if !isPasswordValid password then ⟨[], "Please satisfy all password requirements."⟩
    else
      match backendError with
      | some msg => ⟨[AuthCall.signUp email password], msg⟩
      | none =>
        ⟨[AuthCall.signUp email password],
          "Account created! Please check your email then Sign In."⟩
  | View.signin =>
    match backendError with
    | some msg => ⟨[AuthCall.signInWithPassword email password], msg⟩
    | none => ⟨[AuthCall.signInWithPassword email password], ""⟩

end Auth

namespace App

/-- The array `requirements` of `App.jsx`, over the `newPassword` state. -/
def requirements (newPassword : String) : List Requirement :=
  [ ⟨"At least 6 characters", decide (jsLength newPassword ≥ 6)⟩,
    ⟨"One lowercase letter", testClass lowerClass newPassword⟩,
    ⟨"One uppercase letter", testClass upperClass newPassword⟩,
    ⟨"One number", testClass digitClass newPassword⟩,
    ⟨"One symbol (!@#$)", testClass symbolClass newPassword⟩ ]

/-- The flag `isPasswordValid` of `App.jsx`. -/
def isPasswordValid (newPassword : String) : Bool :=
  (requirements newPassword).all (fun req => req.met)

/-- The flag `doPasswordsMatch` of `App.jsx`. -/
def doPasswordsMatch (newPassword confirmPassword : String) : Bool :=
  newPassword == confirmPassword

/-- What a run of `handleUpdatePassword` leaves behind: the passwords passed to
`supabase.auth.updateUser`, in order, and the final `resetMessage` state. -/
structure Outcome where
  updateUserCalls : List String
  resetMessage : String
  deriving DecidableEq, Repr

/-- The handler `handleUpdatePassword` of `App.jsx`. `backendError` is the `error.message` of the
backend's answer, `none` when the call succeeds. -/
def handleUpdatePassword (newPassword confirmPassword : String)
    (backendError : Option String) : Outcome :=
  if !isPasswordValid newPassword then ⟨[], "Please satisfy all password requirements."⟩
  else if !doPasswordsMatch newPassword confirmPassword then ⟨[], "Passwords do not match."⟩
  else
    match backendError with
    | some msg => ⟨[newPassword], msg⟩
    | none => ⟨[newPassword], "Success! Redirecting to Sign In..."⟩

end App

/-! ## Auxiliary definitions for the proofs -/

/-- The number a list of decimal digit characters denotes. -/
def digitsValue (cs : List Char) : Nat :=
  cs.foldl (fun acc c => 10 * acc + (c.toNat - 48)) 0

/-- A condition on a backend row under which the row itself keeps the completion
invariant under every key `fetchTasks` probes: a completed row carries a non-empty
`completed_at`; a row that is not completed carries no completion timestamp. -/
def rowCompletionConsistent (r : Task) : Prop :=
  (r.completed = true → r.completed_at.truthy = true) ∧
  (r.completed = false →
    r.completed_at.nonNull = false ∧ r.completedAt.nonNull = false ∧
      r.completedat.nonNull = false)

/-- A backend row used in concrete evaluations: not completed, starting 2024-01-15. -/
def sampleRow : Task :=
  { id := 1, title := "Write report", description := JsVal.null, completed := false,
    user_id := "u1", start_date := JsVal.str "2024-01-15", end_date := JsVal.null,
    completed_at := JsVal.null, startDate := JsVal.undefined, endDate := JsVal.undefined,
    completedAt := JsVal.undefined, startdate := JsVal.undefined, enddate := JsVal.undefined,
    completedat := JsVal.undefined }

/-- The client task `fetchTasks` makes of `sampleRow`. -/
def sampleTask : Task :=
  { sampleRow with startDate := JsVal.str "2024-01-15", endDate := JsVal.undefined,
                   completedAt := JsVal.undefined }

/-- A backend row marked completed whose `completed_at` is null. -/
def completedRowWithoutTimestamp : Task :=
  { sampleRow with completed := true }

/-- A completed client task whose `completedAt` is null. -/
def completedTaskWithoutTimestamp : Task :=
  { sampleTask with completed := true, completedAt := JsVal.null }

/-- A client task completed at the time `sampleISO` names. -/
def completedTask : Task :=
  { sampleTask with completed := true, completedAt := JsVal.str "2024-01-16T10:00:00.000Z" }

/-- A stand-in for `Date.prototype.toISOString` in concrete evaluations. -/
def sampleISO (_ : Int) : String := "2024-01-16T10:00:00.000Z"

/-- A stand-in for `parseISO` in concrete evaluations: it reads the one timestamp
string `sampleISO` produces. -/
def sampleParseISO (s : String) : Option Int :=
  if s = "2024-01-16T10:00:00.000Z" then some 1705399200000 else none

/-- An engine parser that rejects every string it is asked about. -/
def noEngine (_ : String) : Option Int := none

/-- The time value by which `sortFn` places a task; an Invalid Date has none and is
given 0 here. -/
def sortTime (engine : String → Option Int) (t : Task) : Int :=
  (sortDate engine t.startDate).getD 0

/-- Every `startDate` that is present (a non-empty string) is a well-formed
`yyyy-MM-dd` date. -/
def startDatesWellFormed (tasks : List Task) : Prop :=
  ∀ t ∈ tasks, ∀ s, t.startDate = JsVal.str s → s ≠ "" → (parseYMD s).isSome = true

/-- A task list used in concrete evaluations: a task without `startDate`, a task
starting 2024-01-15 and a task starting 2023-12-09. -/
def sampleTasks : List Task :=
  [{ sampleTask with id := 1, startDate := JsVal.null },
   { sampleTask with id := 2, startDate := JsVal.str "2024-01-15" },
   { sampleTask with id := 3, startDate := JsVal.str "2023-12-09" }]

/-- A list of 40 tasks of which exactly 23 are completed. -/
def fortyTasks : List Task :=
  List.replicate 23 completedTask ++ List.replicate 17 sampleTask

/-- Calendar order on dates given as year, month and day: year first, then month, then
day. -/
def dateLe (a b : Nat × Nat × Nat) : Prop :=
  a.1 < b.1 ∨ (a.1 = b.1 ∧ (a.2.1 < b.2.1 ∨ (a.2.1 = b.2.1 ∧ a.2.2 ≤ b.2.2)))

/-! ## Handlers as sequences of effects; the task form; the day modal -/

/-- The columns a request writes, as the keys of the object passed to `update` or
`insert`; a delete writes none. -/
def TaskRequest.columns : TaskRequest → List String
  | TaskRequest.updateCompletion _ _ _ => ["completed", "completed_at"]
  | TaskRequest.deleteById _ => []
  | TaskRequest.updateFields _ _ _ _ _ => ["title", "start_date", "end_date", "description"]
  | TaskRequest.insert _ _ _ _ _ _ =>
    ["title", "start_date", "end_date", "description", "user_id", "completed"]

/-- The id a request is keyed by with `.eq('id', ...)`; an insert has none. -/
def TaskRequest.key : TaskRequest → Option Nat
  | TaskRequest.updateCompletion id _ _ => some id
  | TaskRequest.deleteById id => some id
  | TaskRequest.updateFields id _ _ _ _ => some id
  | TaskRequest.insert _ _ _ _ _ _ => none

/-- One effect of a handler of `App.jsx`: a `setTasks` call, a request to the `tasks`
table, or a call of `fetchTasks`. -/
inductive Action where
  | setTasks (tasks : List Task)
  | request (r : TaskRequest)
  | fetchTasks
  deriving DecidableEq, Repr

/-- The `formData` state of `TaskModal`: the four-key object of a new task, or the task
object put there by `setFormData(taskToEdit)`, with the edits made since. -/
inductive FormData where
  | fresh (title : String) (description startDate endDate : JsVal)
  | fromTask (task : Task)
  deriving DecidableEq, Repr

/-- The read `formData.title`. -/
def FormData.title : FormData → String
  | FormData.fresh title _ _ _ => title
  | FormData.fromTask task => task.title

/-- The read `formData.description`. -/
def FormData.description : FormData → JsVal
  | FormData.fresh _ description _ _ => description
  | FormData.fromTask task => task.description

/-- The read `formData.startDate`. -/
def FormData.startDate : FormData → JsVal
  | FormData.fresh _ _ startDate _ => startDate
  | FormData.fromTask task => task.startDate

/-- The read `formData.endDate`. -/
def FormData.endDate : FormData → JsVal
  | FormData.fresh _ _ _ endDate => endDate
  | FormData.fromTask task => task.endDate

/-- The effect of `TaskModal` when the modal opens: `setFormData(taskToEdit)` for an
edit, a blank form dated `selectedDate` otherwise. -/
def loadForm (taskToEdit : Option Task) (selectedDate : Option LocalDate) : FormData :=
  match taskToEdit with
  | some task => FormData.fromTask task
  | none =>
    let dateStr := match selectedDate with
      | some d => formatYMD d
      | none => ""
    FormData.fresh "" (JsVal.str "") (JsVal.str dateStr) (JsVal.str "")

/-- A change typed into one of the three inputs of the form. -/
inductive FormEdit where
  | title (value : String)
  | startDate (value : String)
  | endDate (value : String)
  deriving DecidableEq, Repr

/-- The `onChange` handlers of the form: `setFormData({...formData, key: value})`. -/
def applyEdit (formData : FormData) : FormEdit → FormData
  | FormEdit.title value =>
    match formData with
    | FormData.fresh _ description startDate endDate =>
      FormData.fresh value description startDate endDate
    | FormData.fromTask task => FormData.fromTask { task with title := value }
  | FormEdit.startDate value =>
    match formData with
    | FormData.fresh title description _ endDate =>
      FormData.fresh title description (JsVal.str value) endDate
    | FormData.fromTask task => FormData.fromTask { task with startDate := JsVal.str value }
  | FormEdit.endDate value =>
    match formData with
    | FormData.fresh title description startDate _ =>
      FormData.fresh title description startDate (JsVal.str value)
    | FormData.fromTask task => FormData.fromTask { task with endDate := JsVal.str value }

/-- The keys of the object `handleSubmit` passes to `onSave` that `saveTask` or the claims
read. -/
structure TaskData where
  id : Nat
  completed : Bool
  title : String
  description : JsVal
  startDate : JsVal
  endDate : JsVal
  deriving DecidableEq, Repr

/-- The object `handleSubmit` builds, `{ id: ..., completed: ..., ...formData }`: the keys
of `formData` come last, so an `id` or `completed` key of `formData` replaces the one
written first. `uuid` is the value of `uuidv4()`. -/
def handleSubmit (taskToEdit : Option Task) (formData : FormData) (uuid : Nat) : TaskData :=
  let id := match taskToEdit with
    | some task => task.id
    | none => uuid
  let completed := match taskToEdit with
    | some task => task.completed
    | none => false
  match formData with
  | FormData.fresh title description startDate endDate =>
    { id := id, completed := completed, title := title, description := description,
      startDate := startDate, endDate := endDate }
  | FormData.fromTask task =>
    { id := task.id, completed := task.completed, title := task.title,
      description := task.description, startDate := task.startDate, endDate := task.endDate }

/-- The handler `saveTask(taskData)` of `App.jsx`, as its effects in order.
`sessionUserId` is `session.user.id`; `backendError` is the `error` of the backend's
answer, `none` when the request succeeds. -/
def saveTask (editingTask : Option Task) (sessionUserId : String) (taskData : TaskData)
    (backendError : Option String) : List Action :=
  match editingTask with
  | some _ =>
    Action.request (TaskRequest.updateFields taskData.id taskData.title taskData.startDate
      taskData.endDate taskData.description) ::
      (if backendError.isNone then [Action.fetchTasks] else [])
  | none =>
    Action.request (TaskRequest.insert taskData.title taskData.startDate taskData.endDate
      taskData.description sessionUserId false) ::
      (if backendError.isNone then [Action.fetchTasks] else [])

/-- The handler `toggleTaskCompletion(taskId)` as its effects in order: `setTasks`, then
the awaited update, whose answer `backendError` is not read. `none` when the lookup
finds no task and the handler throws. -/
def toggleTaskCompletionActions (toISOString : Int → String) (tasks : List Task)
    (taskId : Nat) (now : Int) (_backendError : Option String) : Option (List Action) :=
  match toggleTaskCompletion toISOString tasks taskId now with
  | some (newTasks, r) => some [Action.setTasks newTasks, Action.request r]
  | none => none

/-- The handler `deleteTask(taskId)` as its effects in order: `setTasks`, then the
awaited delete, whose answer `backendError` is not read. -/
def deleteTaskActions (tasks : List Task) (taskId : Nat) (_backendError : Option String) :
    List Action :=
  [Action.setTasks (deleteTask tasks taskId).1, Action.request (deleteTask tasks taskId).2]

/-- JavaScript `Number(b)` for a boolean. -/
def numberOfBool (b : Bool) : Int :=
  if b then 1 else 0

/-- The comparator of `dayTasks.sort`: `Number(a.completed) - Number(b.completed)`. -/
def completedCompare (a b : Task) : Option Int :=
  some (numberOfBool a.completed - numberOfBool b.completed)

/-- The tasks displayed in a calendar cell: `dayTasks` after `dayTasks.sort(...)`. -/
def dayTasksSorted (tasks : List Task) (day : LocalDate) : List Task :=
  arraySort completedCompare (dayTasks tasks day)

/-- The list `dailyTasks` of `DayModal`. -/
def dailyTasks (tasks : List Task) (selectedDate : Option LocalDate) : List Task :=
  let dayString := match selectedDate with
    | some d => formatYMD d
    | none => ""
  tasks.filter (fun task =>
    let start := task.startDate == JsVal.str dayString
    let end_ := task.endDate == JsVal.str dayString
    start || end_)

/-- What `renderTaskCard` returns: `null`, a card with its date label, or nothing at all
because `format` throws on an Invalid Date. -/
inductive RenderResult where
  | null
  | card (task : Task) (dateLabel : String)
  | throws
  deriving DecidableEq, Repr

/-- One run of `renderTaskCard`: its result, the strings given to `parseISO` and the
dates given to `format`, `none` being an Invalid Date. -/
structure RenderRun where
  result : RenderResult
  parseCalls : List String
  formatCalls : List (Option Int)
  deriving DecidableEq, Repr

/-- The function `renderTaskCard(task)` of the sidebar. `formatMMMd` is date-fns
`format(date, 'MMM d')` on a valid date. -/
def renderTaskCard (parseISO : String → Option Int) (formatMMMd : Int → String)
    (task : Task) : RenderRun :=
  if !task.startDate.truthy then ⟨RenderResult.null, [], []⟩
  else
    match task.startDate with
    | JsVal.str s =>
      match parseISO s with
      | some displayDate =>
        ⟨RenderResult.card task (formatMMMd displayDate), [s], [some displayDate]⟩
      | none => ⟨RenderResult.throws, [s], [none]⟩
    | _ => ⟨RenderResult.null, [], []⟩

/-- The requests among the effects of a handler, in order. -/
def requestsOf : List Action → List TaskRequest
  | [] => []
  | Action.request r :: rest => r :: requestsOf rest
  | _ :: rest => requestsOf rest

/-- The value the mapping of `fetchTasks` is said to give a key: the first truthy of
three values, and the last of them when none is truthy. -/
def firstTruthyOrLast (a b c : JsVal) : JsVal :=
  if a.truthy then a else if b.truthy then b else c

/-- A task with a start date and a later deadline. -/
def rangeTask : Task :=
  { sampleTask with id := 4, startDate := JsVal.str "2024-01-15",
                    endDate := JsVal.str "2024-01-20" }

/-- A list of 200 tasks of which all but the last are completed. -/
def twoHundredTasks : List Task :=
  List.replicate 199 completedTask ++ [sampleTask]

/-- A password of five characters, `aA1!` followed by one character beyond `U+FFFF`
(`U+1F600`, two UTF-16 code units): its JavaScript `length` is 6. -/
def astralPassword : String :=
  String.mk ['a', 'A', '1', '!', Char.ofNat 128512]

/-! ## Calendar lemmas -/

theorem dayFromYear_succ (y : Int) : dayFromYear (y + 1) = dayFromYear y + daysInYear y := by
  unfold dayFromYear daysInYear
  split_ifs <;> omega

theorem daysInYear_bounds (y : Int) : 365 ≤ daysInYear y ∧ daysInYear y ≤ 366 := by
  unfold daysInYear
  split_ifs <;> omega

theorem yearFromDay_guess (n : Int) :
    dayFromYear (1970 + (400 * n) / 146097 - 1) ≤ n ∧
      n < dayFromYear (1970 + (400 * n) / 146097 + 1 + 1) := by
  unfold dayFromYear
  omega

theorem yearFromDay_spec (n : Int) :
    dayFromYear (yearFromDay n) ≤ n ∧ n < dayFromYear (yearFromDay n + 1) := by
  have hg := yearFromDay_guess n
  unfold yearFromDay
  simp only
  split_ifs with h1 h2
  · rw [Int.sub_add_cancel]
    exact ⟨hg.1, h1⟩
  · exact ⟨h2, hg.2⟩
  · omega

theorem dayFromYear_mono {a b : Int} (h : a ≤ b) : dayFromYear a ≤ dayFromYear b := by
  unfold dayFromYear
  omega

theorem dayFromYear_step {a b : Int} (h : a < b) : dayFromYear a + 365 ≤ dayFromYear b := by
  have h1 := dayFromYear_mono (show a + 1 ≤ b by omega)
  have h2 := dayFromYear_succ a
  have h3 := daysInYear_bounds a
  omega

theorem yearFromDay_unique {n y : Int} (h1 : dayFromYear y ≤ n)
    (h2 : n < dayFromYear (y + 1)) : yearFromDay n = y := by
  have hs := yearFromDay_spec n
  by_contra hne
  rcases lt_or_gt_of_ne hne with hlt | hgt
  · have := dayFromYear_mono (show yearFromDay n + 1 ≤ y by omega)
    omega
  · have := dayFromYear_mono (show y + 1 ≤ yearFromDay n by omega)
    omega

theorem inLeapYear_eq (y : Int) : daysInYear y = 365 + inLeapYear y := by
  unfold inLeapYear
  have := daysInYear_bounds y
  split_ifs <;> omega

theorem inLeapYear_range (y : Int) : inLeapYear y = 0 ∨ inLeapYear y = 1 := by
  unfold inLeapYear
  split_ifs <;> simp

theorem dayWithinYear_bounds (n : Int) :
    0 ≤ dayWithinYear n ∧ dayWithinYear n < 365 + inLeapYear (yearFromDay n) := by
  have hs := yearFromDay_spec n
  have h1 := dayFromYear_succ (yearFromDay n)
  have h2 := inLeapYear_eq (yearFromDay n)
  unfold dayWithinYear
  omega

theorem monthStartDay_cases (m l : Int) :
    (m ≤ 0 ∧ monthStartDay m l = 0) ∨ (m = 1 ∧ monthStartDay m l = 31) ∨
    (m = 2 ∧ monthStartDay m l = 59 + l) ∨ (m = 3 ∧ monthStartDay m l = 90 + l) ∨
    (m = 4 ∧ monthStartDay m l = 120 + l) ∨ (m = 5 ∧ monthStartDay m l = 151 + l) ∨
    (m = 6 ∧ monthStartDay m l = 181 + l) ∨ (m = 7 ∧ monthStartDay m l = 212 + l) ∨
    (m = 8 ∧ monthStartDay m l = 243 + l) ∨ (m = 9 ∧ monthStartDay m l = 273 + l) ∨
    (m = 10 ∧ monthStartDay m l = 304 + l) ∨ (11 ≤ m ∧ monthStartDay m l = 334 + l) := by
  by_cases h0 : m ≤ 0
  · refine Or.inl ⟨h0, ?_⟩
    unfold monthStartDay
    rw [if_pos h0]
  by_cases h1 : m = 1
  · refine Or.inr (Or.inl ⟨h1, ?_⟩)
    unfold monthStartDay
    rw [if_neg h0, if_pos h1]
  by_cases h2 : m = 2
  · refine Or.inr (Or.inr (Or.inl ⟨h2, ?_⟩))
    unfold monthStartDay
    rw [if_neg h0, if_neg h1, if_pos h2]
  by_cases h3 : m = 3
  · refine Or.inr (Or.inr (Or.inr (Or.inl ⟨h3, ?_⟩)))
    unfold monthStartDay
    rw [if_neg h0, if_neg h1, if_neg h2, if_pos h3]
  by_cases h4 : m = 4
  · refine Or.inr (Or.inr (Or.inr (Or.inr (Or.inl ⟨h4, ?_⟩))))
    unfold monthStartDay
    rw [if_neg h0, if_neg h1, if_neg h2, if_neg h3, if_pos h4]
  by_cases h5 : m = 5
  · refine Or.inr (Or.inr (Or.inr (Or.inr (Or.inr (Or.inl ⟨h5, ?_⟩)))))
    unfold monthStartDay
    rw [if_neg h0, if_neg h1, if_neg h2, if_neg h3, if_neg h4, if_pos h5]
  by_cases h6 : m = 6
  · refine Or.inr (Or.inr (Or.inr (Or.inr (Or.inr (Or.inr (Or.inl ⟨h6, ?_⟩))))))
    unfold monthStartDay
    rw [if_neg h0, if_neg h1, if_neg h2, if_neg h3, if_neg h4, if_neg h5, if_pos h6]
  by_cases h7 : m = 7
  · refine Or.inr (Or.inr (Or.inr (Or.inr (Or.inr (Or.inr (Or.inr (Or.inl ⟨h7, ?_⟩)))))))
    unfold monthStartDay
    rw [if_neg h0, if_neg h1, if_neg h2, if_neg h3, if_neg h4, if_neg h5, if_neg h6, if_pos h7]
  by_cases h8 : m = 8
  · refine Or.inr (Or.inr (Or.inr (Or.inr (Or.inr (Or.inr (Or.inr (Or.inr (Or.inl ⟨h8, ?_⟩))))))))
    unfold monthStartDay
    rw [if_neg h0, if_neg h1, if_neg h2, if_neg h3, if_neg h4, if_neg h5, if_neg h6, if_neg h7,
      if_pos h8]
  by_cases h9 : m = 9
  · refine Or.inr (Or.inr (Or.inr (Or.inr (Or.inr (Or.inr (Or.inr (Or.inr (Or.inr (Or.inl ⟨h9, ?_⟩)))))))))
    unfold monthStartDay
    rw [if_neg h0, if_neg h1, if_neg h2, if_neg h3, if_neg h4, if_neg h5, if_neg h6, if_neg h7,
      if_neg h8, if_pos h9]
  by_cases h10 : m = 10
  · refine Or.inr (Or.inr (Or.inr (Or.inr (Or.inr (Or.inr (Or.inr (Or.inr (Or.inr (Or.inr (Or.inl ⟨h10, ?_⟩))))))))))
    unfold monthStartDay
    rw [if_neg h0, if_neg h1, if_neg h2, if_neg h3, if_neg h4, if_neg h5, if_neg h6, if_neg h7,
      if_neg h8, if_neg h9, if_pos h10]
  refine Or.inr (Or.inr (Or.inr (Or.inr (Or.inr (Or.inr (Or.inr (Or.inr (Or.inr (Or.inr (Or.inr (⟨by omega, ?_⟩)))))))))))
  unfold monthStartDay
  rw [if_neg h0, if_neg h1, if_neg h2, if_neg h3, if_neg h4, if_neg h5, if_neg h6, if_neg h7,
    if_neg h8, if_neg h9, if_neg h10]

theorem monthOfYearDay_cases (d l : Int) :
    (d < 31 ∧ monthOfYearDay d l = 0) ∨
    (31 ≤ d ∧ d < 59 + l ∧ monthOfYearDay d l = 1) ∨
    (59 + l ≤ d ∧ d < 90 + l ∧ monthOfYearDay d l = 2) ∨
    (90 + l ≤ d ∧ d < 120 + l ∧ monthOfYearDay d l = 3) ∨
    (120 + l ≤ d ∧ d < 151 + l ∧ monthOfYearDay d l = 4) ∨
    (151 + l ≤ d ∧ d < 181 + l ∧ monthOfYearDay d l = 5) ∨
    (181 + l ≤ d ∧ d < 212 + l ∧ monthOfYearDay d l = 6) ∨
    (212 + l ≤ d ∧ d < 243 + l ∧ monthOfYearDay d l = 7) ∨
    (243 + l ≤ d ∧ d < 273 + l ∧ monthOfYearDay d l = 8) ∨
    (273 + l ≤ d ∧ d < 304 + l ∧ monthOfYearDay d l = 9) ∨
    (304 + l ≤ d ∧ d < 334 + l ∧ monthOfYearDay d l = 10) ∨
    (334 + l ≤ d ∧ monthOfYearDay d l = 11) := by
  by_cases h0 : d < 31
  · refine Or.inl ⟨h0, ?_⟩
    unfold monthOfYearDay
    rw [if_pos h0]
  by_cases h1 : d < 59 + l
  · refine Or.inr (Or.inl ⟨by omega, h1, ?_⟩)
    unfold monthOfYearDay
    rw [if_neg h0, if_pos h1]
  by_cases h2 : d < 90 + l
  · refine Or.inr (Or.inr (Or.inl ⟨by omega, h2, ?_⟩))
    unfold monthOfYearDay
    rw [if_neg h0, if_neg h1, if_pos h2]
  by_cases h3 : d < 120 + l
  · refine Or.inr (Or.inr (Or.inr (Or.inl ⟨by omega, h3, ?_⟩)))
    unfold monthOfYearDay
    rw [if_neg h0, if_neg h1, if_neg h2, if_pos h3]
  by_cases h4 : d < 151 + l
  · refine Or.inr (Or.inr (Or.inr (Or.inr (Or.inl ⟨by omega, h4, ?_⟩))))
    unfold monthOfYearDay
    rw [if_neg h0, if_neg h1, if_neg h2, if_neg h3, if_pos h4]
  by_cases h5 : d < 181 + l
  · refine Or.inr (Or.inr (Or.inr (Or.inr (Or.inr (Or.inl ⟨by omega, h5, ?_⟩)))))
    unfold monthOfYearDay
    rw [if_neg h0, if_neg h1, if_neg h2, if_neg h3, if_neg h4, if_pos h5]
  by_cases h6 : d < 212 + l
  · refine Or.inr (Or.inr (Or.inr (Or.inr (Or.inr (Or.inr (Or.inl ⟨by omega, h6, ?_⟩))))))
    unfold monthOfYearDay
    rw [if_neg h0, if_neg h1, if_neg h2, if_neg h3, if_neg h4, if_neg h5, if_pos h6]
  by_cases h7 : d < 243 + l
  · refine Or.inr (Or.inr (Or.inr (Or.inr (Or.inr (Or.inr (Or.inr (Or.inl ⟨by omega, h7, ?_⟩)))))))
    unfold monthOfYearDay
    rw [if_neg h0, if_neg h1, if_neg h2, if_neg h3, if_neg h4, if_neg h5, if_neg h6, if_pos h7]
  by_cases h8 : d < 273 + l
  · refine Or.inr (Or.inr (Or.inr (Or.inr (Or.inr (Or.inr (Or.inr (Or.inr (Or.inl ⟨by omega, h8, ?_⟩))))))))
    unfold monthOfYearDay
    rw [if_neg h0, if_neg h1, if_neg h2, if_neg h3, if_neg h4, if_neg h5, if_neg h6, if_neg h7,
      if_pos h8]
  by_cases h9 : d < 304 + l
  · refine Or.inr (Or.inr (Or.inr (Or.inr (Or.inr (Or.inr (Or.inr (Or.inr (Or.inr (Or.inl ⟨by omega, h9, ?_⟩)))))))))
    unfold monthOfYearDay
    rw [if_neg h0, if_neg h1, if_neg h2, if_neg h3, if_neg h4, if_neg h5, if_neg h6, if_neg h7,
      if_neg h8, if_pos h9]
  by_cases h10 : d < 334 + l
  · refine Or.inr (Or.inr (Or.inr (Or.inr (Or.inr (Or.inr (Or.inr (Or.inr (Or.inr (Or.inr (Or.inl ⟨by omega, h10, ?_⟩))))))))))
    unfold monthOfYearDay
    rw [if_neg h0, if_neg h1, if_neg h2, if_neg h3, if_neg h4, if_neg h5, if_neg h6, if_neg h7,
      if_neg h8, if_neg h9, if_pos h10]
  refine Or.inr (Or.inr (Or.inr (Or.inr (Or.inr (Or.inr (Or.inr (Or.inr (Or.inr (Or.inr (Or.inr (⟨by omega, ?_⟩)))))))))))
  unfold monthOfYearDay
  rw [if_neg h0, if_neg h1, if_neg h2, if_neg h3, if_neg h4, if_neg h5, if_neg h6, if_neg h7,
    if_neg h8, if_neg h9, if_neg h10]

theorem monthOfYearDay_range (d l : Int) : 0 ≤ monthOfYearDay d l ∧ monthOfYearDay d l ≤ 11 := by
  have := monthOfYearDay_cases d l
  omega

theorem monthFromDay_range (n : Int) : 0 ≤ monthFromDay n ∧ monthFromDay n ≤ 11 :=
  monthOfYearDay_range _ _

/-- The day-within-year is on or after the start of the month `monthOfYearDay` names. -/
theorem monthOfYearDay_spec (d l : Int) (h0 : 0 ≤ d) :
    monthStartDay (monthOfYearDay d l) l ≤ d := by
  have h1 := monthOfYearDay_cases d l
  have h2 := monthStartDay_cases (monthOfYearDay d l) l
  omega

/-- A month start followed by fewer days than the month holds stays in the month. -/
theorem monthOfYearDay_start (m l k : Int) (hl : l = 0 ∨ l = 1) (hm0 : 0 ≤ m) (hm1 : m ≤ 11)
    (hk0 : 0 ≤ k) (hk1 : k < 28) : monthOfYearDay (monthStartDay m l + k) l = m := by
  have h1 := monthOfYearDay_cases (monthStartDay m l + k) l
  have h2 := monthStartDay_cases m l
  omega

theorem monthStartDay_bounds (m l : Int) (hl : l = 0 ∨ l = 1) :
    0 ≤ monthStartDay m l ∧ monthStartDay m l ≤ 334 + l := by
  have h2 := monthStartDay_cases m l
  omega

/-- Round trip of `setDate(getDate() + k)`: it moves the date by `k` days. -/
theorem makeDay_roundtrip (n k : Int) :
    makeDay (yearFromDay n) (monthFromDay n) (dateFromDay n + k) = n + k := by
  unfold makeDay dateFromDay dayWithinYear
  omega

theorem yearFromDay_makeDay (y m k : Int) (hk0 : 0 ≤ k) (hk1 : k < 28) :
    yearFromDay (makeDay y m (1 + k)) = y := by
  have hl := inLeapYear_range y
  have hb := monthStartDay_bounds m (inLeapYear y) hl
  have h1 := dayFromYear_succ y
  have h2 := inLeapYear_eq y
  apply yearFromDay_unique <;> unfold makeDay <;> omega

theorem monthFromDay_makeDay (y m k : Int) (hm0 : 0 ≤ m) (hm1 : m ≤ 11) (hk0 : 0 ≤ k)
    (hk1 : k < 28) : monthFromDay (makeDay y m (1 + k)) = m := by
  have hy := yearFromDay_makeDay y m k hk0 hk1
  unfold monthFromDay dayWithinYear
  rw [hy]
  have : makeDay y m (1 + k) - dayFromYear y = monthStartDay m (inLeapYear y) + k := by
    unfold makeDay
    omega
  rw [this]
  exact monthOfYearDay_start m _ k (inLeapYear_range y) hm0 hm1 hk0 hk1

theorem dateFromDay_makeDay (y m k : Int) (hm0 : 0 ≤ m) (hm1 : m ≤ 11) (hk0 : 0 ≤ k)
    (hk1 : k < 28) : dateFromDay (makeDay y m (1 + k)) = 1 + k := by
  have hy := yearFromDay_makeDay y m k hk0 hk1
  have hm := monthFromDay_makeDay y m k hm0 hm1 hk0 hk1
  unfold dateFromDay dayWithinYear
  rw [hm, hy]
  unfold makeDay
  omega

theorem weekDay_range (n : Int) : 0 ≤ weekDay n ∧ weekDay n < 7 := by
  unfold weekDay
  omega

/-! ## The grid as an explicit list -/

theorem setDate_shift (d : LocalDate) (k : Int) :
    d.setDate (d.getDate + k) = ⟨d.day + k, d.ms⟩ := by
  simp only [LocalDate.setDate, LocalDate.getDate, LocalDate.getFullYear, LocalDate.getMonth,
    makeDay_roundtrip]

theorem startOfWeek_eq (d : LocalDate) : startOfWeek d = ⟨d.day - weekDay d.day, 0⟩ := by
  have hw := weekDay_range d.day
  unfold startOfWeek
  simp only [LocalDate.getDay]
  rw [if_neg (by omega)]
  have : d.getDate - (0 + weekDay d.day - 0) = d.getDate + (-(weekDay d.day)) := by omega
  rw [this, setDate_shift]
  simp only [LocalDate.setHoursZero]
  congr 1

theorem addDays_eq (d : LocalDate) (k : Int) : addDays d k = ⟨d.day + k, d.ms⟩ := by
  unfold addDays
  split_ifs with h
  · subst h
    simp
  · exact setDate_shift d k

theorem eachDayLoop_eq (fuel : Nat) (d e : Int) (h : d + fuel ≤ e + 1) :
    eachDayLoop fuel ⟨d, 0⟩ (e * msPerDay) =
      (List.range fuel).map (fun (i : Nat) => (⟨d + (i : Int), 0⟩ : LocalDate)) := by
  induction fuel generalizing d with
  | zero => rfl
  | succ k ih =>
    have hle : (⟨d, 0⟩ : LocalDate).time ≤ e * msPerDay := by
      simp only [LocalDate.time, msPerDay]
      push_cast at h
      omega
    rw [eachDayLoop, if_pos hle, setDate_shift]
    have hz : (⟨d + 1, 0⟩ : LocalDate).setHoursZero = ⟨d + 1, 0⟩ := rfl
    rw [hz, ih (d + 1) (by push_cast at h; omega), List.range_succ_eq_map]
    simp only [List.map_cons, List.map_map, Nat.cast_zero, add_zero]
    congr 1
    apply List.map_congr_left
    intro i _
    simp only [Function.comp, Nat.cast_succ]
    congr 1
    omega

theorem calendarDays_eq (ref : LocalDate) :
    calendarDays ref =
      (List.range 42).map (fun (i : Nat) => (⟨gridStart ref + (i : Int), 0⟩ : LocalDate)) := by
  unfold calendarDays eachDayOfInterval
  simp only [startOfWeek_eq, addDays_eq, LocalDate.setHoursZero, LocalDate.time]
  have hfuel : (((gridStart ref + 41) * msPerDay + 0 - (gridStart ref * msPerDay + 0)) / msPerDay
      + 1).toNat = 42 := by
    have : (gridStart ref + 41) * msPerDay + 0 - (gridStart ref * msPerDay + 0)
        = 41 * msPerDay := by ring
    rw [this]
    decide
  unfold gridStart at hfuel ⊢
  rw [hfuel]
  have := eachDayLoop_eq 42 ((startOfMonth ref).day - weekDay (startOfMonth ref).day)
    ((startOfMonth ref).day - weekDay (startOfMonth ref).day + 41) (by push_cast; omega)
  simpa using this

/-- The loop of `eachDayOfInterval` ends by its own test: fuel beyond the number of days
of the interval changes nothing. -/
theorem eachDayLoop_extra_fuel (fuel extra : Nat) (d e : Int) (h : d + fuel = e + 1) :
    eachDayLoop (fuel + extra) ⟨d, 0⟩ (e * msPerDay) =
      eachDayLoop fuel ⟨d, 0⟩ (e * msPerDay) := by
  induction fuel generalizing d with
  | zero =>
    cases extra with
    | zero => rfl
    | succ k =>
      have hgt : ¬ (⟨d, 0⟩ : LocalDate).time ≤ e * msPerDay := by
        simp only [LocalDate.time, msPerDay]
        push_cast at h
        omega
      rw [Nat.zero_add]
      simp only [eachDayLoop, if_neg hgt]
  | succ k ih =>
    have hle : (⟨d, 0⟩ : LocalDate).time ≤ e * msPerDay := by
      simp only [LocalDate.time, msPerDay]
      push_cast at h
      omega
    have hz : (⟨d + 1, 0⟩ : LocalDate).setHoursZero = ⟨d + 1, 0⟩ := rfl
    rw [Nat.succ_add]
    simp only [eachDayLoop, if_pos hle, setDate_shift, hz]
    rw [ih (d + 1) (by push_cast at h; omega)]

/-- The grid does not depend on the fuel given to the loop: any fuel of at least 42
yields `calendarDays`. -/
theorem calendarDays_extra_fuel (ref : LocalDate) (extra : Nat) :
    eachDayLoop (42 + extra) (startOfWeek (startOfMonth ref)).setHoursZero
      (addDays (startOfWeek (startOfMonth ref)) 41).time = calendarDays ref := by
  rw [calendarDays_eq]
  simp only [startOfWeek_eq, addDays_eq, LocalDate.setHoursZero, LocalDate.time, add_zero]
  rw [eachDayLoop_extra_fuel 42 extra _ _ (by push_cast; omega)]
  have := eachDayLoop_eq 42 ((startOfMonth ref).day - weekDay (startOfMonth ref).day)
    ((startOfMonth ref).day - weekDay (startOfMonth ref).day + 41) (by push_cast; omega)
  simpa [gridStart] using this

theorem startOfMonth_day (ref : LocalDate) :
    (startOfMonth ref).day = makeDay (yearFromDay ref.day) (monthFromDay ref.day) 1 := rfl




theorem startOfMonth_facts (ref : LocalDate) :
    (startOfMonth ref).getDate = 1 ∧ (startOfMonth ref).getMonth = ref.getMonth ∧
      (startOfMonth ref).getFullYear = ref.getFullYear ∧ (startOfMonth ref).day ≤ ref.day ∧
      (startOfMonth ref).ms = 0 := by
  have hm := monthFromDay_range ref.day
  simp only [LocalDate.getDate, LocalDate.getMonth, LocalDate.getFullYear, startOfMonth_day]
  refine ⟨?_, ?_, ?_, ?_, rfl⟩
  · simpa using dateFromDay_makeDay (yearFromDay ref.day) (monthFromDay ref.day) 0 hm.1 hm.2
      (by decide) (by decide)
  · simpa using monthFromDay_makeDay (yearFromDay ref.day) (monthFromDay ref.day) 0 hm.1 hm.2
      (by decide) (by decide)
  · simpa using yearFromDay_makeDay (yearFromDay ref.day) (monthFromDay ref.day) 0
      (by decide) (by decide)
  · have h1 := monthOfYearDay_spec (dayWithinYear ref.day) (inLeapYear (yearFromDay ref.day))
      (dayWithinYear_bounds ref.day).1
    unfold makeDay
    unfold monthFromDay
    unfold dayWithinYear at h1 ⊢
    omega

/-- C1: for every reference date the grid `calendarDays` has exactly 42 dates, each
one calendar day after the previous one (all at local midnight); its first date is
a Sunday on or before the first day of the reference date's month and fewer than 7
days before it, where that first day is `startOfMonth`: day-of-month 1 in the
month and year of the reference date. -/
theorem calendarDays_grid (ref : LocalDate) :
    (calendarDays ref).length = 42 ∧
    (∀ i : Nat, i + 1 < 42 → ∃ a b, (calendarDays ref)[i]? = some a ∧
      (calendarDays ref)[i + 1]? = some b ∧ b.day = a.day + 1 ∧ a.ms = 0 ∧ b.ms = 0) ∧
    (∃ first, (calendarDays ref)[0]? = some first ∧ first.getDay = 0 ∧
      first.day ≤ (startOfMonth ref).day ∧ (startOfMonth ref).day - first.day < 7) ∧
    ((startOfMonth ref).getDate = 1 ∧ (startOfMonth ref).getMonth = ref.getMonth ∧
      (startOfMonth ref).getFullYear = ref.getFullYear) := by
  have hf := startOfMonth_facts ref
  have hw := weekDay_range (startOfMonth ref).day
  refine ⟨?_, ?_, ?_, hf.1, hf.2.1, hf.2.2.1⟩
  · rw [calendarDays_eq]
    simp
  · intro i hi
    refine ⟨⟨gridStart ref + (i : Int), 0⟩, ⟨gridStart ref + ((i + 1 : Nat) : Int), 0⟩, ?_, ?_, ?_,
      rfl, rfl⟩
    · rw [calendarDays_eq, List.getElem?_map, List.getElem?_range (by omega)]
      rfl
    · rw [calendarDays_eq, List.getElem?_map, List.getElem?_range (by omega)]
      rfl
    · push_cast
      omega
  · refine ⟨⟨gridStart ref + ((0 : Nat) : Int), 0⟩, ?_, ?_, ?_, ?_⟩
    · rw [calendarDays_eq, List.getElem?_map, List.getElem?_range (by decide)]
      rfl
    · simp only [LocalDate.getDay, gridStart, weekDay]
      omega
    · simp only [gridStart]
      omega
    · simp only [gridStart]
      omega

/-! ## `format(day, 'yyyy-MM-dd')` separates the cells of a grid -/

theorem digitChar_value : ∀ k : Nat, k < 10 → (Nat.digitChar k).toNat - 48 = k := by
  decide

theorem foldl_toDigitsCore (fuel : Nat) : ∀ (n : Nat) (ds : List Char), n < fuel →
    (Nat.toDigitsCore 10 fuel n ds).foldl (fun acc c => 10 * acc + (c.toNat - 48)) 0 =
      ds.foldl (fun acc c => 10 * acc + (c.toNat - 48)) n := by
  induction fuel with
  | zero => intro n ds h; omega
  | succ k ih =>
    intro n ds h
    have hd := digitChar_value (n % 10) (Nat.mod_lt _ (by decide))
    unfold Nat.toDigitsCore
    simp only
    split_ifs with h0
    · simp only [List.foldl_cons, hd]
      congr 1
      omega
    · rw [ih (n / 10) _ (by omega)]
      simp only [List.foldl_cons, hd]
      congr 1
      omega

theorem digitsValue_numberToString (n : Nat) : digitsValue (numberToString n) = n := by
  unfold digitsValue numberToString Nat.toDigits
  rw [foldl_toDigitsCore _ _ _ (Nat.lt_succ_self n)]
  rfl

theorem digitsValue_padStart (s : List Char) (k : Nat) :
    digitsValue (padStart s k) = digitsValue s := by
  unfold padStart digitsValue
  generalize k - s.length = r
  induction r with
  | zero => rfl
  | succ r ih =>
    rw [List.replicate_succ, List.cons_append, List.foldl_cons]
    exact ih

theorem addLeadingZeros_value (k : Int) (targetLength : Nat) (h : 0 ≤ k) :
    digitsValue (addLeadingZeros k targetLength) = k.natAbs := by
  unfold addLeadingZeros
  simp only [if_neg (not_lt.mpr h), List.nil_append]
  rw [digitsValue_padStart, digitsValue_numberToString]

theorem padStart_two_length : ∀ n : Nat, n < 100 →
    (padStart (numberToString n) 2).length = 2 := by
  decide

theorem addLeadingZeros_two_length (k : Int) (h0 : 0 ≤ k) (h1 : k < 100) :
    (addLeadingZeros k 2).length = 2 := by
  unfold addLeadingZeros
  simp only [if_neg (not_lt.mpr h0), List.nil_append]
  exact padStart_two_length k.natAbs (by omega)

theorem dateFromDay_range (n : Int) : 1 ≤ dateFromDay n ∧ dateFromDay n ≤ 31 := by
  have hb := dayWithinYear_bounds n
  have hl := inLeapYear_range (yearFromDay n)
  have h1 := monthOfYearDay_cases (dayWithinYear n) (inLeapYear (yearFromDay n))
  have h2 := monthStartDay_cases (monthFromDay n) (inLeapYear (yearFromDay n))
  unfold dateFromDay
  unfold monthFromDay at h2 ⊢
  omega

/-- Equal `yyyy-MM-dd` strings name the same month and day of the month. -/
theorem formatYMD_month_date {a b : LocalDate} (h : formatYMD a = formatYMD b) :
    a.getMonth = b.getMonth ∧ a.getDate = b.getDate := by
  have hma : 0 ≤ a.getMonth + 1 ∧ a.getMonth + 1 < 100 := by
    have := monthFromDay_range a.day
    unfold LocalDate.getMonth
    omega
  have hmb : 0 ≤ b.getMonth + 1 ∧ b.getMonth + 1 < 100 := by
    have := monthFromDay_range b.day
    unfold LocalDate.getMonth
    omega
  have hda : 0 ≤ a.getDate ∧ a.getDate < 100 := by
    have := dateFromDay_range a.day
    unfold LocalDate.getDate
    omega
  have hdb : 0 ≤ b.getDate ∧ b.getDate < 100 := by
    have := dateFromDay_range b.day
    unfold LocalDate.getDate
    omega
  have lma := addLeadingZeros_two_length _ hma.1 hma.2
  have lmb := addLeadingZeros_two_length _ hmb.1 hmb.2
  have lda := addLeadingZeros_two_length _ hda.1 hda.2
  have ldb := addLeadingZeros_two_length _ hdb.1 hdb.2
  unfold formatYMD at h
  have hl := congrArg String.data h
  simp only at hl
  have h2 := (List.append_inj' hl (by simp only [List.length_cons, List.length_append, lma, lmb,
    lda, ldb])).2
  have h3 := List.tail_eq_of_cons_eq h2
  have h4 := List.append_inj h3 (by rw [lma, lmb])
  have h5 := List.tail_eq_of_cons_eq h4.2
  have hm := congrArg digitsValue h4.1
  have hd := congrArg digitsValue h5
  rw [addLeadingZeros_value _ _ hma.1, addLeadingZeros_value _ _ hmb.1] at hm
  rw [addLeadingZeros_value _ _ hda.1, addLeadingZeros_value _ _ hdb.1] at hd
  omega

/-- Two days fewer than 42 apart with the same month and day of the month are equal. -/
theorem day_eq_of_month_date {n1 n2 : Int} (hm : monthFromDay n1 = monthFromDay n2)
    (hd : dateFromDay n1 = dateFromDay n2) (h1 : n1 - n2 < 42) (h2 : n2 - n1 < 42) :
    n1 = n2 := by
  have hy : yearFromDay n1 = yearFromDay n2 := by
    by_contra hne
    have c1 := monthStartDay_cases (monthFromDay n1) (inLeapYear (yearFromDay n1))
    have c2 := monthStartDay_cases (monthFromDay n2) (inLeapYear (yearFromDay n2))
    have l1 := inLeapYear_range (yearFromDay n1)
    have l2 := inLeapYear_range (yearFromDay n2)
    rw [hm] at c1
    unfold dateFromDay dayWithinYear at hd
    rw [hm] at hd
    rcases lt_or_gt_of_ne hne with hlt | hgt
    · have := dayFromYear_step hlt
      omega
    · have := dayFromYear_step hgt
      omega
  unfold dateFromDay dayWithinYear at hd
  rw [hm, hy] at hd
  omega

theorem calendarDays_getElem {ref : LocalDate} {i : Nat} {a : LocalDate}
    (h : (calendarDays ref)[i]? = some a) : i < 42 ∧ a.day = gridStart ref + (i : Int) := by
  rw [calendarDays_eq, List.getElem?_map] at h
  by_cases hi : i < 42
  · rw [List.getElem?_range hi] at h
    simp only [Option.map_some', Option.some.injEq] at h
    exact ⟨hi, by rw [← h]⟩
  · rw [List.getElem?_eq_none (by simpa using hi)] at h
    simp at h

/-- Distinct cells of one grid carry distinct `yyyy-MM-dd` strings. -/
theorem calendarDays_format_inj {ref : LocalDate} {i j : Nat} {a b : LocalDate}
    (ha : (calendarDays ref)[i]? = some a) (hb : (calendarDays ref)[j]? = some b)
    (h : formatYMD a = formatYMD b) : i = j := by
  have h1 := calendarDays_getElem ha
  have h2 := calendarDays_getElem hb
  have hmd := formatYMD_month_date h
  have := day_eq_of_month_date hmd.1 hmd.2 (by omega) (by omega)
  omega

theorem truthy_iff (v : JsVal) : v.truthy = true ↔ ∃ s, s ≠ "" ∧ v = JsVal.str s := by
  cases v <;> simp [JsVal.truthy]

theorem truthy_false_iff (v : JsVal) :
    v.truthy = false ↔ v = JsVal.undefined ∨ v = JsVal.null ∨ v = JsVal.str "" := by
  cases v <;> simp [JsVal.truthy]

theorem mem_dayTasks (tasks : List Task) (d : LocalDate) (t : Task) :
    t ∈ dayTasks tasks d ↔ t ∈ tasks ∧
      (if t.endDate.truthy = true then t.endDate = JsVal.str (formatYMD d)
        else t.startDate = JsVal.str (formatYMD d)) := by
  unfold dayTasks
  simp only [List.mem_filter]
  cases hv : t.endDate with
  | undefined => simp [JsVal.truthy]
  | null => simp [JsVal.truthy]
  | str s =>
    by_cases hs : s = ""
    · subst hs
      simp [JsVal.truthy]
    · simp [JsVal.truthy, hs]

/-- C2: membership in a calendar cell. A task whose `endDate` is absent (`undefined`
or `null`) or empty is among the cell's tasks exactly when its `startDate` equals the
cell date formatted as `yyyy-MM-dd`; a task with a non-empty `endDate` exactly when its
`endDate` equals that string. Hence a task is in at most one cell of a grid, and a task
with a non-empty `endDate` different from its `startDate` is not in its `startDate` cell. -/
theorem dayTasks_cell_membership (tasks : List Task) (t : Task) :
    (∀ d : LocalDate,
      (t.endDate = JsVal.undefined ∨ t.endDate = JsVal.null ∨ t.endDate = JsVal.str "") →
      (t ∈ dayTasks tasks d ↔ t ∈ tasks ∧ t.startDate = JsVal.str (formatYMD d))) ∧
    (∀ d : LocalDate, (∃ s, s ≠ "" ∧ t.endDate = JsVal.str s) →
      (t ∈ dayTasks tasks d ↔ t ∈ tasks ∧ t.endDate = JsVal.str (formatYMD d))) ∧
    (∀ (ref : LocalDate) (i j : Nat) (a b : LocalDate),
      (calendarDays ref)[i]? = some a → (calendarDays ref)[j]? = some b →
      t ∈ dayTasks tasks a → t ∈ dayTasks tasks b → i = j) ∧
    (∀ d : LocalDate, (∃ s, s ≠ "" ∧ t.endDate = JsVal.str s) → t.startDate ≠ t.endDate →
      t.startDate = JsVal.str (formatYMD d) → t ∉ dayTasks tasks d) := by
  refine ⟨?_, ?_, ?_, ?_⟩
  · intro d h
    rw [mem_dayTasks, if_neg (by rw [(truthy_false_iff _).mpr h]; simp)]
  · intro d h
    rw [mem_dayTasks, if_pos ((truthy_iff _).mpr h)]
  · intro ref i j a b ha hb hta htb
    rw [mem_dayTasks] at hta htb
    apply calendarDays_format_inj ha hb
    by_cases hv : t.endDate.truthy = true
    · rw [if_pos hv] at hta htb
      have := hta.2.symm.trans htb.2
      exact JsVal.str.inj this
    · rw [if_neg hv] at hta htb
      have := hta.2.symm.trans htb.2
      exact JsVal.str.inj this
  · intro d h hne hs hmem
    rw [mem_dayTasks, if_pos ((truthy_iff _).mpr h)] at hmem
    exact hne (hs.trans hmem.2.symm)

/-- The cell of local day 19700 is labelled 2023-12-09. -/
theorem formatYMD_sample : formatYMD ⟨19700, 0⟩ = "2023-12-09" := by decide

/-! ## `toggleTaskCompletion`, `deleteTask`, `fetchTasks` -/

theorem find_first (pre post : List Task) (t : Task) (hpre : ∀ u ∈ pre, u.id ≠ t.id) :
    (pre ++ t :: post).find? (fun u => u.id == t.id) = some t := by
  induction pre with
  | nil => simp
  | cons a pre ih =>
    have ha : a.id ≠ t.id := hpre a (List.mem_cons_self _ _)
    rw [List.cons_append, List.find?_cons_of_neg _ (by simpa using ha)]
    exact ih (fun u hu => hpre u (List.mem_cons_of_mem _ hu))

theorem map_toggle_before (pre : List Task) (taskId : Nat) (f : Task → Task)
    (hpre : ∀ u ∈ pre, u.id ≠ taskId) :
    pre.map (fun u => if u.id == taskId then f u else u) = pre := by
  induction pre with
  | nil => rfl
  | cons a pre ih =>
    have ha : a.id ≠ taskId := hpre a (List.mem_cons_self _ _)
    rw [List.map_cons, ih (fun u hu => hpre u (List.mem_cons_of_mem _ hu))]
    simp [ha]

/-- C3: let `t` be the task with id `taskId` that the lookup of `toggleTaskCompletion`
selects (the first of the list with that id, the only one when ids are unique). The
call returns; in the new list the task at that position has `completed` negated and,
when it went from false to true, `completedAt` the non-null `toISOString` of the current
time, and when it went from true to false, `completedAt` null; every task before it is
unchanged; the request sent is the update keyed by `taskId` with the same `completed`
and `completed_at` values. -/
theorem toggleTaskCompletion_spec (toISOString : Int → String) (pre post : List Task)
    (t : Task) (taskId : Nat) (now : Int) (hid : t.id = taskId)
    (hpre : ∀ u ∈ pre, u.id ≠ taskId) :
    ∃ t' post', toggleTaskCompletion toISOString (pre ++ t :: post) taskId now =
        some (pre ++ t' :: post', TaskRequest.updateCompletion taskId t'.completed t'.completedAt) ∧
      post'.length = post.length ∧
      t'.completed = (!t.completed) ∧
      (t.completed = false →
        t'.completedAt = JsVal.str (toISOString now) ∧ t'.completedAt.nonNull = true) ∧
      (t.completed = true → t'.completedAt = JsVal.null) ∧
      t'.id = t.id := by
  subst hid
  refine ⟨{ t with completed := !t.completed,
                   completedAt := if (!t.completed) = true then JsVal.str (toISOString now)
                     else JsVal.null },
    post.map (fun u => if u.id == t.id then
      { u with completed := !t.completed,
               completedAt := if (!t.completed) = true then JsVal.str (toISOString now)
                 else JsVal.null } else u), ?_, ?_, rfl, ?_, ?_, rfl⟩
  · unfold toggleTaskCompletion
    rw [find_first pre post t hpre]
    simp only [List.map_append, List.map_cons, beq_self_eq_true, if_true]
    rw [map_toggle_before pre t.id _ hpre]
  · simp
  · intro h
    simp [h, JsVal.nonNull]
  · intro h
    simp [h]

/-- The toggle at a concrete list: the second task of three is completed at time 0. -/
theorem toggleTaskCompletion_spec_witness :
    ({ sampleTask with id := 2 } : Task).id = 2 ∧
    (∀ u ∈ [{ sampleTask with id := 7 }], u.id ≠ 2) ∧
    ∃ t' post', toggleTaskCompletion sampleISO
        ([{ sampleTask with id := 7 }] ++ { sampleTask with id := 2 } ::
          [{ sampleTask with id := 3 }]) 2 0 =
        some ([{ sampleTask with id := 7 }] ++ t' :: post',
          TaskRequest.updateCompletion 2 t'.completed t'.completedAt) ∧
      post'.length = [{ sampleTask with id := 3 }].length ∧
      t'.completed = (!({ sampleTask with id := 2 } : Task).completed) ∧
      (({ sampleTask with id := 2 } : Task).completed = false →
        t'.completedAt = JsVal.str (sampleISO 0) ∧ t'.completedAt.nonNull = true) ∧
      (({ sampleTask with id := 2 } : Task).completed = true → t'.completedAt = JsVal.null) ∧
      t'.id = ({ sampleTask with id := 2 } : Task).id :=
  ⟨rfl, by decide,
    toggleTaskCompletion_spec sampleISO [{ sampleTask with id := 7 }]
      [{ sampleTask with id := 3 }] { sampleTask with id := 2 } 2 0 rfl (by decide)⟩

theorem or_nonNull_of_truthy {a b : JsVal} (h : a.truthy = true) : (a.or b).nonNull = true := by
  unfold JsVal.or
  rw [if_pos h]
  cases a <;> simp_all [JsVal.truthy, JsVal.nonNull]

theorem truthy_false_of_nonNull_false {a : JsVal} (h : a.nonNull = false) :
    a.truthy = false := by
  cases a <;> simp_all [JsVal.truthy, JsVal.nonNull]

theorem formatRow_invariant (r : Task) (h : rowCompletionConsistent r) :
    completedAtInvariant (formatRow r) := by
  unfold completedAtInvariant formatRow
  simp only
  cases hc : r.completed with
  | true =>
    have h1 := h.1 hc
    simp only [iff_true]
    have : (r.completed_at.or r.completedAt).truthy = true := by
      unfold JsVal.or
      rw [if_pos h1]
      exact h1
    exact or_nonNull_of_truthy this
  | false =>
    obtain ⟨h1, h2, h3⟩ := h.2 hc
    have t1 := truthy_false_of_nonNull_false h1
    have t2 := truthy_false_of_nonNull_false h2
    simp [JsVal.or, t1, t2, h3]

theorem toggle_preserves_invariant (toISOString : Int → String) (tasks tasks' : List Task)
    (taskId : Nat) (now : Int) (req : TaskRequest)
    (hinv : ∀ t ∈ tasks, completedAtInvariant t)
    (h : toggleTaskCompletion toISOString tasks taskId now = some (tasks', req)) :
    ∀ t ∈ tasks', completedAtInvariant t := by
  unfold toggleTaskCompletion at h
  cases hf : tasks.find? (fun t => t.id == taskId) with
  | none => rw [hf] at h; simp at h
  | some task =>
    rw [hf] at h
    simp only [Option.some.injEq, Prod.mk.injEq] at h
    intro t ht
    rw [← h.1, List.mem_map] at ht
    obtain ⟨u, hu, rfl⟩ := ht
    by_cases hid : (u.id == taskId) = true
    · rw [if_pos hid]
      unfold completedAtInvariant
      cases task.completed <;> simp [JsVal.nonNull]
    · rw [if_neg hid]
      exact hinv u hu

theorem delete_preserves_invariant (tasks : List Task) (taskId : Nat)
    (hinv : ∀ t ∈ tasks, completedAtInvariant t) :
    ∀ t ∈ (deleteTask tasks taskId).1, completedAtInvariant t := by
  intro t ht
  unfold deleteTask at ht
  exact hinv t (List.mem_of_mem_filter ht)

/-- C4, the claim as stated fails: the mapping of `fetchTasks` turns a backend row that
is completed and has a null `completed_at` into a task with `completed` true and
`completedAt` not set. -/
theorem fetchTasks_invariant_counterexample :
    ¬ (∀ rows : List Task, ∀ t ∈ formattedData (some rows), completedAtInvariant t) := by
  intro h
  have h1 := h [completedRowWithoutTimestamp] (formatRow completedRowWithoutTimestamp)
    (by simp [formattedData])
  revert h1
  unfold completedAtInvariant
  decide

/-- C4, amended: the invariant (`completedAt` non-null exactly when `completed`) holds
for the list `fetchTasks` builds whenever every backend row is consistent (a non-empty
`completed_at` when completed, no completion timestamp under any probed key when not),
and it is preserved by `toggleTaskCompletion` and by `deleteTask`. -/
theorem completedAt_invariant_amended :
    (∀ rows : List Task, (∀ r ∈ rows, rowCompletionConsistent r) →
      ∀ t ∈ formattedData (some rows), completedAtInvariant t) ∧
    (∀ (toISOString : Int → String) (tasks tasks' : List Task) (taskId : Nat) (now : Int)
      (req : TaskRequest), (∀ t ∈ tasks, completedAtInvariant t) →
      toggleTaskCompletion toISOString tasks taskId now = some (tasks', req) →
      ∀ t ∈ tasks', completedAtInvariant t) ∧
    (∀ (tasks : List Task) (taskId : Nat), (∀ t ∈ tasks, completedAtInvariant t) →
      ∀ t ∈ (deleteTask tasks taskId).1, completedAtInvariant t) := by
  refine ⟨?_, ?_, ?_⟩
  · intro rows hrows t ht
    simp only [formattedData, Option.getD_some, List.mem_map] at ht
    obtain ⟨r, hr, rfl⟩ := ht
    exact formatRow_invariant r (hrows r hr)
  · intro toISOString tasks tasks' taskId now req hinv h
    exact toggle_preserves_invariant toISOString tasks tasks' taskId now req hinv h
  · intro tasks taskId hinv
    exact delete_preserves_invariant tasks taskId hinv

/-! ## Sidebar: the Accomplished filter -/

theorem hours_lt_iff (d : Int) :
    Int.tdiv d millisecondsInHour < 24 ↔ d < 24 * millisecondsInHour := by
  unfold millisecondsInHour
  rcases le_or_lt 0 d with h | h
  · rw [Int.tdiv_eq_ediv h (by decide)]
    omega
  · have h1 : Int.tdiv d 3600000 = -(Int.tdiv (-d) 3600000) := by
      rw [Int.neg_tdiv, neg_neg]
    have h2 : 0 ≤ Int.tdiv (-d) 3600000 := Int.tdiv_nonneg (by omega) (by decide)
    constructor <;> intro _ <;> omega

theorem accomplishedFilter_iff (parseISO : String → Option Int) (now : Int) (t : Task) :
    accomplishedFilter parseISO now t = true ↔
      t.completed = true ∧
        (t.completedAt.truthy = false ∨
          ∃ s ts, t.completedAt = JsVal.str s ∧ s ≠ "" ∧ parseISO s = some ts ∧
            now - ts < 24 * millisecondsInHour) := by
  unfold accomplishedFilter
  cases hc : t.completed with
  | false => simp
  | true =>
    cases hv : t.completedAt with
    | undefined => simp [JsVal.truthy]
    | null => simp [JsVal.truthy]
    | str s =>
      by_cases hs : s = ""
      · subst hs
        simp [JsVal.truthy]
      · cases hp : parseISO s with
        | none => simp [JsVal.truthy, hs, differenceInHours, hp]
        | some ts => simp [JsVal.truthy, hs, differenceInHours, hp, hours_lt_iff]

theorem mem_arraySort {α : Type} (comparefn : α → α → Option Int) (l : List α) (x : α) :
    x ∈ arraySort comparefn l ↔ x ∈ l := by
  unfold arraySort
  exact (List.perm_insertionSort _ l).mem_iff

theorem mem_accomplishedList (engine parseISO : String → Option Int) (now : Int)
    (tasks : List Task) (t : Task) :
    t ∈ accomplishedList engine parseISO now tasks ↔
      t ∈ tasks ∧ accomplishedFilter parseISO now t = true := by
  unfold accomplishedList accomplishedFiltered
  rw [mem_arraySort, List.mem_filter]

/-- C5: a completed task whose `completedAt` is a timestamp (a non-empty string that
`parseISO` reads as the time `ts`) more than 24 hours before the current time is not in
the sidebar's Accomplished list. -/
theorem accomplishedList_excludes_old (engine parseISO : String → Option Int) (now : Int)
    (tasks : List Task) (t : Task) (s : String) (ts : Int) (_hc : t.completed = true)
    (hs : t.completedAt = JsVal.str s) (hne : s ≠ "") (hp : parseISO s = some ts)
    (hold : now - ts > 24 * millisecondsInHour) :
    t ∉ accomplishedList engine parseISO now tasks := by
  rw [mem_accomplishedList, accomplishedFilter_iff]
  rintro ⟨_, _, h | ⟨s', ts', h1, _, h3, h4⟩⟩
  · rw [hs] at h
    simp [JsVal.truthy, hne] at h
  · rw [hs] at h1
    cases h1
    rw [hp] at h3
    cases h3
    omega

/-- A task completed 25 hours before the current time is left out. -/
theorem accomplishedList_excludes_old_witness :
    completedTask.completed = true ∧
    completedTask.completedAt = JsVal.str "2024-01-16T10:00:00.000Z" ∧
    "2024-01-16T10:00:00.000Z" ≠ "" ∧
    sampleParseISO "2024-01-16T10:00:00.000Z" = some 1705399200000 ∧
    (1705399200000 + 25 * 3600000 : Int) - 1705399200000 > 24 * millisecondsInHour ∧
    completedTask ∉ accomplishedList noEngine sampleParseISO (1705399200000 + 25 * 3600000)
      [sampleTask, completedTask] :=
  ⟨rfl, rfl, by decide, by decide, by decide,
    accomplishedList_excludes_old noEngine sampleParseISO (1705399200000 + 25 * 3600000)
      [sampleTask, completedTask] completedTask "2024-01-16T10:00:00.000Z" 1705399200000 rfl rfl
      (by decide) (by decide) (by decide)⟩

/-- C6, the claim as stated fails: a completed task whose `completedAt` is null is in
the Accomplished list although it has no completion timestamp within the last 24 hours. -/
theorem accomplishedList_counterexample :
    ¬ (∀ (engine parseISO : String → Option Int) (now : Int) (tasks : List Task) (t : Task),
      t ∈ accomplishedList engine parseISO now tasks ↔
        t ∈ tasks ∧ t.completed = true ∧
          ∃ s ts, t.completedAt = JsVal.str s ∧ parseISO s = some ts ∧ ts ≤ now ∧
            now - ts < 24 * millisecondsInHour) := by
  intro h
  have h1 := (h noEngine sampleParseISO 0 [completedTaskWithoutTimestamp]
    completedTaskWithoutTimestamp).mp (by decide)
  obtain ⟨_, _, s, ts, hs, _⟩ := h1
  have hnull : completedTaskWithoutTimestamp.completedAt = JsVal.null := rfl
  rw [hnull] at hs
  cases hs

/-- C6, amended: a task is in the Accomplished list exactly when it is a completed task
of the list and either its `completedAt` is absent or empty, or its `completedAt` is a
timestamp less than 24 hours before the current time (a timestamp later than the current
time included). -/
theorem accomplishedList_iff (engine parseISO : String → Option Int) (now : Int)
    (tasks : List Task) (t : Task) :
    t ∈ accomplishedList engine parseISO now tasks ↔
      t ∈ tasks ∧ t.completed = true ∧
        ((t.completedAt = JsVal.undefined ∨ t.completedAt = JsVal.null ∨
            t.completedAt = JsVal.str "") ∨
          ∃ s ts, t.completedAt = JsVal.str s ∧ s ≠ "" ∧ parseISO s = some ts ∧
            now - ts < 24 * millisecondsInHour) := by
  rw [mem_accomplishedList, accomplishedFilter_iff, truthy_false_iff]

/-! ## Sidebar: the sort -/

theorem digitValue_le {c : Char} {v : Nat} (h : digitValue c = some v) : v ≤ 9 := by
  unfold digitValue at h
  split_ifs at h with hc
  obtain ⟨_, h2⟩ := hc
  rw [Char.le_def] at h2
  have h3 : c.toNat ≤ '9'.toNat := h2
  have h9 : '9'.toNat = 57 := by decide
  have h0 : '0'.toNat = 48 := by decide
  simp only [Option.some.injEq] at h
  omega

theorem mem_map_digitValue_le (cs : List Char) {v : Nat}
    (h : some v ∈ cs.map digitValue) : v ≤ 9 := by
  rw [List.mem_map] at h
  obtain ⟨c, _, hc⟩ := h
  exact digitValue_le hc

/-- A well-formed `yyyy-MM-dd` string names a year up to 9999, a month 1..12 and a day
of that month. -/
theorem parseYMD_bounds {s : String} {y m d : Nat} (h : parseYMD s = some (y, m, d)) :
    y ≤ 9999 ∧ 1 ≤ m ∧ m ≤ 12 ∧ 1 ≤ d ∧ (d : Int) ≤ daysInMonth y m := by
  unfold parseYMD at h
  split at h
  · rename_i y1 y2 y3 y4 m1 m2 d1 d2 heq
    have b1 : y1 ≤ 9 := mem_map_digitValue_le s.data (by rw [heq]; simp)
    have b2 : y2 ≤ 9 := mem_map_digitValue_le s.data (by rw [heq]; simp)
    have b3 : y3 ≤ 9 := mem_map_digitValue_le s.data (by rw [heq]; simp)
    have b4 : y4 ≤ 9 := mem_map_digitValue_le s.data (by rw [heq]; simp)
    simp only at h
    split_ifs at h with hc
    simp only [Option.some.injEq, Prod.mk.injEq] at h
    obtain ⟨hy, hm, hd⟩ := h
    subst hy hm hd
    refine ⟨by omega, hc.2.2.1, hc.2.2.2.1, hc.2.2.2.2.1, hc.2.2.2.2.2⟩
  · simp at h

theorem daysInMonth_le (y m : Int) (hm1 : 1 ≤ m) (hm2 : m ≤ 12) :
    monthStartDay (m - 1) (inLeapYear y) + daysInMonth y m ≤ 365 + inLeapYear y := by
  have hl := inLeapYear_range y
  have c1 := monthStartDay_cases (m - 1) (inLeapYear y)
  have c2 := monthStartDay_cases m (inLeapYear y)
  unfold daysInMonth
  split_ifs with h12
  · omega
  · omega

/-- The UTC midnight of a well-formed `yyyy-MM-dd` date is below the largest time value. -/
theorem parseYMD_time_lt {s : String} {y m d : Nat} (h : parseYMD s = some (y, m, d)) :
    makeDay y ((m : Int) - 1) d * msPerDay < maxTime := by
  obtain ⟨hy, hm1, hm2, hd1, hd2⟩ := parseYMD_bounds h
  have hl := inLeapYear_range (y : Int)
  have hle := daysInMonth_le y m (by omega) (by omega)
  have hyr : dayFromYear (y : Int) ≤ dayFromYear 9999 := dayFromYear_mono (by omega)
  have h9 : dayFromYear 9999 = 2932532 := by decide
  unfold makeDay msPerDay maxTime
  omega

/-- Under well-formedness `sortFn` reads a time value from every task: the largest time
value when `startDate` is missing, the UTC midnight of the date otherwise, which is
smaller. -/
theorem sortDate_wellFormed (engine : String → Option Int) {tasks : List Task}
    (hwf : startDatesWellFormed tasks) {t : Task} (ht : t ∈ tasks) :
    sortDate engine t.startDate = some (sortTime engine t) ∧
      (t.startDate.truthy = false → sortTime engine t = maxTime) ∧
      (t.startDate.truthy = true → sortTime engine t < maxTime) := by
  unfold sortTime sortDate
  cases hv : t.startDate with
  | undefined => simp [JsVal.truthy]
  | null => simp [JsVal.truthy]
  | str s =>
    by_cases hs : s = ""
    · subst hs
      simp [JsVal.truthy]
    · have hp := hwf t ht s hv hs
      rw [Option.isSome_iff_exists] at hp
      obtain ⟨⟨y, m, d⟩, hp⟩ := hp
      have hlt := parseYMD_time_lt hp
      simp [JsVal.truthy, hs, newDate, hp, hlt]

theorem sortLe_iff (engine : String → Option Int) {tasks : List Task}
    (hwf : startDatesWellFormed tasks) {a b : Task} (ha : a ∈ tasks) (hb : b ∈ tasks) :
    sortLe (sortFn engine) a b ↔ sortTime engine a ≤ sortTime engine b := by
  unfold sortLe sortFn
  rw [(sortDate_wellFormed engine hwf ha).1, (sortDate_wellFormed engine hwf hb).1]
  simp only
  omega

theorem orderedInsert_congr {α : Type} (r r' : α → α → Prop) [DecidableRel r] [DecidableRel r']
    (a : α) (l : List α) (h : ∀ b ∈ l, r a b ↔ r' a b) :
    List.orderedInsert r a l = List.orderedInsert r' a l := by
  induction l with
  | nil => rfl
  | cons b l ih =>
    have hb := h b (List.mem_cons_self _ _)
    simp only [List.orderedInsert]
    by_cases hr : r a b
    · rw [if_pos hr, if_pos (hb.mp hr)]
    · rw [if_neg hr, if_neg (fun h' => hr (hb.mpr h')),
        ih (fun c hc => h c (List.mem_cons_of_mem _ hc))]

theorem insertionSort_congr {α : Type} (r r' : α → α → Prop) [DecidableRel r] [DecidableRel r']
    (l : List α) (h : ∀ a ∈ l, ∀ b ∈ l, r a b ↔ r' a b) :
    List.insertionSort r l = List.insertionSort r' l := by
  induction l with
  | nil => rfl
  | cons a l ih =>
    simp only [List.insertionSort]
    rw [ih (fun x hx y hy => h x (List.mem_cons_of_mem _ hx) y (List.mem_cons_of_mem _ hy))]
    apply orderedInsert_congr
    intro b hb
    rw [List.mem_insertionSort] at hb
    exact h a (List.mem_cons_self _ _) b (List.mem_cons_of_mem _ hb)

/-- Sorting a sublist of a well-formed list with `sortFn` gives a permutation ordered by
non-decreasing time value, the tasks without `startDate` last. -/
theorem arraySort_sortFn (engine : String → Option Int) {tasks : List Task}
    (hwf : startDatesWellFormed tasks) (l : List Task) (hl : ∀ t ∈ l, t ∈ tasks) :
    (arraySort (sortFn engine) l).Perm l ∧
    (arraySort (sortFn engine) l).Pairwise
      (fun a b => sortTime engine a ≤ sortTime engine b) ∧
    (arraySort (sortFn engine) l).Pairwise
      (fun a b => a.startDate.truthy = false → b.startDate.truthy = false) := by
  have hperm : (arraySort (sortFn engine) l).Perm l := List.perm_insertionSort _ l
  have hsorted : (arraySort (sortFn engine) l).Pairwise
      (fun a b => sortTime engine a ≤ sortTime engine b) := by
    unfold arraySort
    rw [insertionSort_congr (sortLe (sortFn engine))
      (fun a b => sortTime engine a ≤ sortTime engine b) l
      (fun a ha b hb => sortLe_iff engine hwf (hl a ha) (hl b hb))]
    haveI : IsTotal Task (fun a b => sortTime engine a ≤ sortTime engine b) :=
      ⟨fun a b => le_total _ _⟩
    haveI : IsTrans Task (fun a b => sortTime engine a ≤ sortTime engine b) :=
      ⟨fun a b c hab hbc => le_trans hab hbc⟩
    exact List.sorted_insertionSort _ l
  refine ⟨hperm, hsorted, ?_⟩
  have hmem : ∀ t ∈ arraySort (sortFn engine) l, t ∈ tasks :=
    fun t ht => hl t (hperm.mem_iff.mp ht)
  refine (List.Pairwise.and_mem.mp hsorted).imp ?_
  intro a b hab ha
  obtain ⟨hma, hmb, hle⟩ := hab
  have h1 := (sortDate_wellFormed engine hwf (hmem a hma)).2.1 ha
  have h2 := (sortDate_wellFormed engine hwf (hmem b hmb)).2.2
  cases hb : b.startDate.truthy with
  | false => rfl
  | true =>
    have := h2 hb
    omega

theorem sortTime_of_parseYMD (engine : String → Option Int) {t : Task} {s : String}
    {y m d : Nat} (hs : t.startDate = JsVal.str s) (hp : parseYMD s = some (y, m, d)) :
    sortTime engine t = makeDay y ((m : Int) - 1) d * msPerDay := by
  have hne : s ≠ "" := by
    rintro rfl
    have hnone : parseYMD "" = none := by decide
    rw [hnone] at hp
    cases hp
  simp [sortTime, sortDate, hs, JsVal.truthy, hne, newDate, hp]

theorem monthStartDay_mono (a b l : Int) (hl : l = 0 ∨ l = 1) (h : a ≤ b) :
    monthStartDay a l ≤ monthStartDay b l := by
  have c1 := monthStartDay_cases a l
  have c2 := monthStartDay_cases b l
  omega

/-- Among days that exist the day number grows with the date: year first, then month,
then day. -/
theorem makeDay_lt_of_date_lt {y1 m1 d1 y2 m2 d2 : Nat}
    (v1 : 1 ≤ m1 ∧ m1 ≤ 12 ∧ 1 ≤ d1 ∧ (d1 : Int) ≤ daysInMonth y1 m1)
    (v2 : 1 ≤ m2 ∧ m2 ≤ 12 ∧ 1 ≤ d2 ∧ (d2 : Int) ≤ daysInMonth y2 m2)
    (h : y1 < y2 ∨ (y1 = y2 ∧ (m1 < m2 ∨ (m1 = m2 ∧ d1 < d2)))) :
    makeDay y1 ((m1 : Int) - 1) d1 < makeDay y2 ((m2 : Int) - 1) d2 := by
  obtain ⟨a1, a2, a3, a4⟩ := v1
  obtain ⟨b1, b2, b3, b4⟩ := v2
  have l1 := inLeapYear_range (y1 : Int)
  have l2 := inLeapYear_range (y2 : Int)
  have hle := daysInMonth_le y1 m1 (by omega) (by omega)
  unfold makeDay
  rcases h with hy | ⟨hy, hm | ⟨hm, hd⟩⟩
  · have s1 := dayFromYear_succ (y1 : Int)
    have s2 := inLeapYear_eq (y1 : Int)
    have s3 := dayFromYear_mono (show (y1 : Int) + 1 ≤ y2 by omega)
    have s4 := monthStartDay_bounds ((m2 : Int) - 1) (inLeapYear (y2 : Int)) l2
    omega
  · subst hy
    have hne : ¬ ((m1 : Int) = 12) := by omega
    have hmono := monthStartDay_mono (m1 : Int) ((m2 : Int) - 1) (inLeapYear (y1 : Int)) l1
      (by omega)
    unfold daysInMonth at a4
    rw [if_neg hne] at a4
    omega
  · subst hy
    subst hm
    omega

theorem dateLe_total (a b : Nat × Nat × Nat) : dateLe a b ∨
    (b.1 < a.1 ∨ (b.1 = a.1 ∧ (b.2.1 < a.2.1 ∨ (b.2.1 = a.2.1 ∧ b.2.2 < a.2.2)))) := by
  unfold dateLe
  omega

/-- The time values `sortFn` compares are in calendar order of the dates. -/
theorem sortTime_le_iff_dateLe (engine : String → Option Int) {a b : Task} {sa sb : String}
    {da db : Nat × Nat × Nat} (ha : a.startDate = JsVal.str sa) (hb : b.startDate = JsVal.str sb)
    (pa : parseYMD sa = some da) (pb : parseYMD sb = some db) :
    sortTime engine a ≤ sortTime engine b ↔ dateLe da db := by
  obtain ⟨ya, ma, dda⟩ := da
  obtain ⟨yb, mb, ddb⟩ := db
  have va := (parseYMD_bounds pa).2
  have vb := (parseYMD_bounds pb).2
  rw [sortTime_of_parseYMD engine ha pa, sortTime_of_parseYMD engine hb pb]
  unfold msPerDay
  constructor
  · intro hle
    rcases dateLe_total (ya, ma, dda) (yb, mb, ddb) with h | h
    · exact h
    · have := makeDay_lt_of_date_lt vb va h
      omega
  · intro hle
    unfold dateLe at hle
    simp only at hle
    by_cases heq : ya = yb ∧ ma = mb ∧ dda = ddb
    · obtain ⟨h1, h2, h3⟩ := heq
      subst h1 h2 h3
      exact le_refl _
    · have := makeDay_lt_of_date_lt va vb (by omega)
      omega

/-- C7: for a task list whose present `startDate` values are well-formed `yyyy-MM-dd`
dates, the To Do list is a permutation of the incomplete tasks, ordered by non-decreasing
`startDate` (by the time value of the date, its UTC midnight, which is in calendar order
of the dates), with every task that has no `startDate` after every task that has one; the
Accomplished list is a permutation of the tasks its filter keeps, ordered by the same
rule. -/
theorem sidebar_lists_sorted (engine parseISO : String → Option Int) (now : Int)
    (tasks : List Task) (hwf : startDatesWellFormed tasks) :
    ((todoList engine tasks).Perm (tasks.filter (fun t => !t.completed)) ∧
      (todoList engine tasks).Pairwise (fun a b => sortTime engine a ≤ sortTime engine b) ∧
      (todoList engine tasks).Pairwise
        (fun a b => a.startDate.truthy = false → b.startDate.truthy = false)) ∧
    ((accomplishedList engine parseISO now tasks).Perm
        (tasks.filter (accomplishedFilter parseISO now)) ∧
      (accomplishedList engine parseISO now tasks).Pairwise
        (fun a b => sortTime engine a ≤ sortTime engine b) ∧
      (accomplishedList engine parseISO now tasks).Pairwise
        (fun a b => a.startDate.truthy = false → b.startDate.truthy = false)) ∧
    (∀ t ∈ tasks, ∀ (s : String) (y m d : Nat), t.startDate = JsVal.str s →
      parseYMD s = some (y, m, d) →
      sortTime engine t = makeDay y ((m : Int) - 1) d * msPerDay) ∧
    (∀ a ∈ tasks, ∀ b ∈ tasks, ∀ (sa sb : String) (da db : Nat × Nat × Nat),
      a.startDate = JsVal.str sa → b.startDate = JsVal.str sb →
      parseYMD sa = some da → parseYMD sb = some db →
      (sortTime engine a ≤ sortTime engine b ↔ dateLe da db)) := by
  refine ⟨?_, ?_, ?_, ?_⟩
  · exact arraySort_sortFn engine hwf _ (fun t ht => List.mem_of_mem_filter ht)
  · exact arraySort_sortFn engine hwf _ (fun t ht => List.mem_of_mem_filter ht)
  · intro t _ s y m d hs hp
    exact sortTime_of_parseYMD engine hs hp
  · intro a _ b _ sa sb da db ha hb pa pb
    exact sortTime_le_iff_dateLe engine ha hb pa pb

theorem sampleTasks_wellFormed : startDatesWellFormed sampleTasks := by
  intro t ht s hs hne
  simp only [sampleTasks, List.mem_cons, List.mem_singleton, List.not_mem_nil, or_false] at ht
  rcases ht with rfl | rfl | rfl
  · simp at hs
  · simp only [JsVal.str.injEq] at hs
    subst hs
    decide
  · simp only [JsVal.str.injEq] at hs
    subst hs
    decide

/-- The sort at a concrete list of three incomplete tasks. -/
theorem sidebar_lists_sorted_witness :
    startDatesWellFormed sampleTasks ∧
    (((todoList noEngine sampleTasks).Perm (sampleTasks.filter (fun t => !t.completed)) ∧
      (todoList noEngine sampleTasks).Pairwise
        (fun a b => sortTime noEngine a ≤ sortTime noEngine b) ∧
      (todoList noEngine sampleTasks).Pairwise
        (fun a b => a.startDate.truthy = false → b.startDate.truthy = false)) ∧
    ((accomplishedList noEngine sampleParseISO 0 sampleTasks).Perm
        (sampleTasks.filter (accomplishedFilter sampleParseISO 0)) ∧
      (accomplishedList noEngine sampleParseISO 0 sampleTasks).Pairwise
        (fun a b => sortTime noEngine a ≤ sortTime noEngine b) ∧
      (accomplishedList noEngine sampleParseISO 0 sampleTasks).Pairwise
        (fun a b => a.startDate.truthy = false → b.startDate.truthy = false)) ∧
    (∀ t ∈ sampleTasks, ∀ (s : String) (y m d : Nat), t.startDate = JsVal.str s →
      parseYMD s = some (y, m, d) →
      sortTime noEngine t = makeDay y ((m : Int) - 1) d * msPerDay) ∧
    (∀ a ∈ sampleTasks, ∀ b ∈ sampleTasks, ∀ (sa sb : String) (da db : Nat × Nat × Nat),
      a.startDate = JsVal.str sa → b.startDate = JsVal.str sb →
      parseYMD sa = some da → parseYMD sb = some db →
      (sortTime noEngine a ≤ sortTime noEngine b ↔ dateLe da db))) :=
  ⟨sampleTasks_wellFormed,
    sidebar_lists_sorted noEngine sampleParseISO 0 sampleTasks sampleTasks_wellFormed⟩

/-- The To Do list of `sampleTasks`: 2023-12-09, then 2024-01-15, then the task without
a `startDate`. -/
theorem todoList_sample : (todoList noEngine sampleTasks).map (fun t => t.id) = [3, 2, 1] := by
  decide

/-! ## Sidebar: the completion percentage -/

/-- The percentage of the empty list is 0, and of every list of two tasks with exactly
one completed it is 50. -/
theorem percentage_examples :
    percentage [] = 0 ∧
    (∀ a b : Task, a.completed = true → b.completed = false → percentage [a, b] = 50) ∧
    (∀ a b : Task, a.completed = false → b.completed = true → percentage [a, b] = 50) := by
  refine ⟨rfl, ?_, ?_⟩
  · intro a b ha hb
    have : percentage [a, b] = mathRound ((Double.ofQuotient 1 2).mulNat 100) := by
      simp [percentage, List.filter, ha, hb]
    rw [this]
    decide
  · intro a b ha hb
    have : percentage [a, b] = mathRound ((Double.ofQuotient 1 2).mulNat 100) := by
      simp [percentage, List.filter, ha, hb]
    rw [this]
    decide

/-- C8, the code at the failing input: with 23 of 40 tasks completed the double
`(23 / 40) * 100` is `57.49999999999999` (`8092405580431359 * 2 ^ (-47)`) and
`Math.round` gives 57, while `100 * 23 / 40 = 57.5` rounded to the nearest integer with
halves up is 58. -/
theorem percentage_forty_tasks :
    fortyTasks.length = 40 ∧ (fortyTasks.filter (fun t => t.completed)).length = 23 ∧
    Double.ofQuotient 23 40 = ⟨5179139571476070, -53⟩ ∧
    (Double.ofQuotient 23 40).mulNat 100 = ⟨8092405580431359, -47⟩ ∧
    percentage fortyTasks = 57 ∧ roundHalfUpPercent 23 40 = 58 := by
  decide

/-! ## Password policy -/

theorem requirements_all (password : String) :
    Auth.isPasswordValid password = true ↔
      jsLength password ≥ 6 ∧ testClass lowerClass password = true ∧
        testClass upperClass password = true ∧ testClass digitClass password = true ∧
        testClass symbolClass password = true := by
  simp [Auth.isPasswordValid, Auth.requirements]

/-- C9, the claim as stated fails: the policy measures the JavaScript `length` of the
password, which counts UTF-16 code units, not characters. The password `astralPassword`
has 5 characters, one of them beyond `U+FFFF`, and `length` 6; it is accepted, so the
policy does not require at least 6 characters of every password. -/
theorem isPasswordValid_counterexample :
    ¬ (∀ password : String, Auth.isPasswordValid password = true ↔
      password.length ≥ 6 ∧ (∃ c ∈ password.data, 'a' ≤ c ∧ c ≤ 'z') ∧
        (∃ c ∈ password.data, 'A' ≤ c ∧ c ≤ 'Z') ∧ (∃ c ∈ password.data, '0' ≤ c ∧ c ≤ '9') ∧
        (∃ c ∈ password.data, c ∈ symbolChars)) := by
  intro h
  have hvalid : Auth.isPasswordValid astralPassword = true := by decide
  have hlen : astralPassword.length = 5 := by decide
  have h6 := ((h astralPassword).mp hvalid).1
  omega

/-- The password `astralPassword` at the policy: 5 characters, JavaScript `length` 6,
accepted. -/
theorem astralPassword_accepted :
    astralPassword.length = 5 ∧ jsLength astralPassword = 6 ∧
      Auth.isPasswordValid astralPassword = true := by
  decide

/-- C9, amended: the sign-up policy `isPasswordValid` holds exactly when the JavaScript
`length` of the password (its number of UTF-16 code units, which is the number of
characters for every password without characters beyond `U+FFFF`) is at least 6 and the
password contains a character in `a-z`, one in `A-Z`, one in `0-9` and one of the 20
listed symbols; it accepts `Abcdef1!` and rejects `abcdef`. -/
theorem isPasswordValid_iff (password : String) :
    (Auth.isPasswordValid password = true ↔
      jsLength password ≥ 6 ∧ (∃ c ∈ password.data, 'a' ≤ c ∧ c ≤ 'z') ∧
        (∃ c ∈ password.data, 'A' ≤ c ∧ c ≤ 'Z') ∧ (∃ c ∈ password.data, '0' ≤ c ∧ c ≤ '9') ∧
        (∃ c ∈ password.data, c ∈ symbolChars)) ∧
    ((∀ c ∈ password.data, c.toNat < 65536) → jsLength password = password.length) ∧
    String.mk symbolChars = "!@#$%^&*(),.?\x22:\x7b\x7d|<>" ∧
    Auth.isPasswordValid "Abcdef1!" = true ∧ Auth.isPasswordValid "abcdef" = false := by
  refine ⟨?_, ?_, by decide, by decide, by decide⟩
  · rw [requirements_all]
    simp [testClass, lowerClass, upperClass, digitClass, symbolClass, List.any_eq_true]
  · intro h
    unfold jsLength
    rw [String.length]
    generalize password.data = cs at h
    induction cs with
    | nil => rfl
    | cons c cs ih =>
      have hc := h c (List.mem_cons_self _ _)
      simp only [List.map_cons, List.sum_cons, List.length_cons]
      rw [ih (fun d hd => h d (List.mem_cons_of_mem _ hd)), if_neg (by omega)]
      omega

/-- C10: on the sign-up form and on the set-new-password form, when the confirmation
differs from the password or the password fails the policy no backend call is made and a
non-empty error message is set; a backend call is made only when the password satisfies
the policy and equals its confirmation, and then it is the single `signUp`, respectively
`updateUser`, call with that password. -/
theorem password_forms_guard (email password confirmPassword : String)
    (backendError : Option String) :
    ((password ≠ confirmPassword ∨ Auth.isPasswordValid password = false) →
      (Auth.handleAuth Auth.View.signup email password confirmPassword backendError).calls = [] ∧
      (Auth.handleAuth Auth.View.signup email password confirmPassword backendError).message
        ≠ "") ∧
    ((Auth.handleAuth Auth.View.signup email password confirmPassword backendError).calls ≠ [] →
      Auth.isPasswordValid password = true ∧ password = confirmPassword) ∧
    ((Auth.isPasswordValid password = true ∧ password = confirmPassword) →
      (Auth.handleAuth Auth.View.signup email password confirmPassword backendError).calls =
        [Auth.AuthCall.signUp email password]) ∧
    ((password ≠ confirmPassword ∨ App.isPasswordValid password = false) →
      (App.handleUpdatePassword password confirmPassword backendError).updateUserCalls = [] ∧
      (App.handleUpdatePassword password confirmPassword backendError).resetMessage ≠ "") ∧
    ((App.handleUpdatePassword password confirmPassword backendError).updateUserCalls ≠ [] →
      App.isPasswordValid password = true ∧ password = confirmPassword) ∧
    ((App.isPasswordValid password = true ∧ password = confirmPassword) →
      (App.handleUpdatePassword password confirmPassword backendError).updateUserCalls =
        [password]) := by
  have m1 : "Passwords do not match!" ≠ "" := by decide
  have m2 : "Please satisfy all password requirements." ≠ "" := by decide
  have m3 : "Passwords do not match." ≠ "" := by decide
  unfold Auth.handleAuth App.handleUpdatePassword App.doPasswordsMatch
  by_cases heq : password = confirmPassword
  · subst heq
    cases hv : Auth.isPasswordValid password <;> cases hv2 : App.isPasswordValid password <;>
      cases backendError <;> simp [m1, m2, m3]
  · cases hv : Auth.isPasswordValid password <;> cases hv2 : App.isPasswordValid password <;>
      cases backendError <;> simp [heq, m1, m2, m3]

/-! ## Calendar cell: the displayed order -/

theorem sortLe_completedCompare (a b : Task) :
    sortLe completedCompare a b ↔ numberOfBool a.completed ≤ numberOfBool b.completed := by
  unfold sortLe completedCompare
  simp only
  omega

theorem mem_dayTasksSorted (tasks : List Task) (day : LocalDate) (t : Task) :
    t ∈ dayTasksSorted tasks day ↔ t ∈ dayTasks tasks day := by
  unfold dayTasksSorted
  exact mem_arraySort _ _ _

/-- C11: the tasks displayed in a cell are a permutation of the tasks matching the cell's
date (the tasks of the list whose `endDate`, when non-empty, or else whose `startDate`
is the cell's `yyyy-MM-dd` string), ordered so that every incomplete task precedes every
completed task: no completed task comes before an incomplete one. -/
theorem dayTasksSorted_spec (tasks : List Task) (day : LocalDate) :
    (dayTasksSorted tasks day).Perm (dayTasks tasks day) ∧
    (∀ t, t ∈ dayTasksSorted tasks day ↔ t ∈ tasks ∧
      (if t.endDate.truthy = true then t.endDate = JsVal.str (formatYMD day)
        else t.startDate = JsVal.str (formatYMD day))) ∧
    (dayTasksSorted tasks day).Pairwise
      (fun a b => ¬ (a.completed = true ∧ b.completed = false)) := by
  refine ⟨List.perm_insertionSort _ _, ?_, ?_⟩
  · intro t
    rw [mem_dayTasksSorted, mem_dayTasks]
  · have hsorted : (dayTasksSorted tasks day).Pairwise
        (fun a b => numberOfBool a.completed ≤ numberOfBool b.completed) := by
      unfold dayTasksSorted arraySort
      rw [insertionSort_congr (sortLe completedCompare)
        (fun a b => numberOfBool a.completed ≤ numberOfBool b.completed) _
        (fun a _ b _ => sortLe_completedCompare a b)]
      haveI : IsTotal Task (fun a b => numberOfBool a.completed ≤ numberOfBool b.completed) :=
        ⟨fun a b => le_total _ _⟩
      haveI : IsTrans Task (fun a b => numberOfBool a.completed ≤ numberOfBool b.completed) :=
        ⟨fun a b c hab hbc => le_trans hab hbc⟩
      exact List.sorted_insertionSort _ _
    refine hsorted.imp ?_
    intro a b hab hc
    rw [hc.1, hc.2] at hab
    revert hab
    decide

/-- The displayed order at a concrete cell: the completed task is listed after the two
incomplete ones. -/
theorem dayTasksSorted_sample :
    (dayTasksSorted [{ sampleTask with id := 5, completed := true },
        { sampleTask with id := 6 }, { sampleTask with id := 7, startDate := JsVal.null },
        { sampleTask with id := 8 }] ⟨19737, 0⟩).map (fun t => t.id) = [6, 8, 5] := by
  decide

/-! ## The task form and `saveTask` -/

theorem requestsOf_save (r : TaskRequest) (backendError : Option String) :
    requestsOf (Action.request r :: (if backendError.isNone then [Action.fetchTasks] else []))
      = [r] := by
  cases backendError <;> rfl

theorem handleSubmit_form (taskToEdit : Option Task) (formData : FormData) (uuid : Nat) :
    (handleSubmit taskToEdit formData uuid).title = formData.title ∧
    (handleSubmit taskToEdit formData uuid).startDate = formData.startDate ∧
    (handleSubmit taskToEdit formData uuid).endDate = formData.endDate ∧
    (handleSubmit taskToEdit formData uuid).description = formData.description := by
  cases formData <;> exact ⟨rfl, rfl, rfl, rfl⟩

/-- C12: a form submitted while no task is being edited makes `saveTask` issue exactly one
request, an insert (no update), whose record has `title`, `start_date`, `end_date` and
`description` equal to the form's `title`, `startDate`, `endDate` and `description`,
`user_id` equal to the session user's id and `completed` false; a form submitted while a
task is being edited makes `saveTask` issue exactly one request, an update of the four
form columns (no insert). -/
theorem saveTask_insert_or_update (formData : FormData) (uuid : Nat) (sessionUserId : String)
    (backendError : Option String) :
    requestsOf (saveTask none sessionUserId (handleSubmit none formData uuid) backendError) =
      [TaskRequest.insert formData.title formData.startDate formData.endDate
        formData.description sessionUserId false] ∧
    (∀ task : Task,
      requestsOf (saveTask (some task) sessionUserId (handleSubmit (some task) formData uuid)
        backendError) =
      [TaskRequest.updateFields (handleSubmit (some task) formData uuid).id formData.title
        formData.startDate formData.endDate formData.description]) := by
  refine ⟨?_, ?_⟩
  · obtain ⟨h1, h2, h3, h4⟩ := handleSubmit_form none formData uuid
    unfold saveTask
    simp only
    rw [requestsOf_save, h1, h2, h3, h4]
  · intro task
    obtain ⟨h1, h2, h3, h4⟩ := handleSubmit_form (some task) formData uuid
    unfold saveTask
    simp only
    rw [requestsOf_save, h1, h2, h3, h4]

theorem applyEdits_fromTask (task : Task) (edits : List FormEdit) :
    ∃ task', edits.foldl applyEdit (FormData.fromTask task) = FormData.fromTask task' ∧
      task'.id = task.id ∧ task'.completed = task.completed := by
  induction edits generalizing task with
  | nil => exact ⟨task, rfl, rfl, rfl⟩
  | cons e edits ih =>
    cases e with
    | title value =>
      obtain ⟨t', h1, h2, h3⟩ := ih { task with title := value }
      exact ⟨t', h1, h2, h3⟩
    | startDate value =>
      obtain ⟨t', h1, h2, h3⟩ := ih { task with startDate := JsVal.str value }
      exact ⟨t', h1, h2, h3⟩
    | endDate value =>
      obtain ⟨t', h1, h2, h3⟩ := ih { task with endDate := JsVal.str value }
      exact ⟨t', h1, h2, h3⟩

/-- C13: for every task being edited and every form content (the form loaded from the
task, then any sequence of changes to its inputs), the record the form submits carries
the task's `id` and `completed`; `saveTask` issues exactly one request, an update keyed
by that id, which sets the columns `title`, `start_date`, `end_date` and `description`
and none of `id`, `completed`, `completed_at`, `user_id`. -/
theorem edit_keeps_identity (task : Task) (selectedDate : Option LocalDate)
    (edits : List FormEdit) (uuid : Nat) (sessionUserId : String)
    (backendError : Option String) :
    (handleSubmit (some task)
      (edits.foldl applyEdit (loadForm (some task) selectedDate)) uuid).id = task.id ∧
    (handleSubmit (some task)
      (edits.foldl applyEdit (loadForm (some task) selectedDate)) uuid).completed =
        task.completed ∧
    ∃ r, requestsOf (saveTask (some task) sessionUserId
        (handleSubmit (some task) (edits.foldl applyEdit (loadForm (some task) selectedDate))
          uuid) backendError) = [r] ∧
      r.key = some task.id ∧
      r.columns = ["title", "start_date", "end_date", "description"] ∧
      "id" ∉ r.columns ∧ "completed" ∉ r.columns ∧ "completed_at" ∉ r.columns ∧
      "user_id" ∉ r.columns := by
  obtain ⟨task', h1, h2, h3⟩ := applyEdits_fromTask task edits
  have hload : loadForm (some task) selectedDate = FormData.fromTask task := rfl
  rw [hload, h1]
  refine ⟨h2, h3, ?_⟩
  refine ⟨TaskRequest.updateFields task.id task'.title task'.startDate task'.endDate
    task'.description, ?_, rfl, rfl, ?_, ?_, ?_, ?_⟩
  · unfold saveTask
    simp only
    rw [requestsOf_save]
    simp only [handleSubmit, h2]
  all_goals
    simp only [TaskRequest.columns]
    decide

/-! ## Refetching after a mutation; `deleteTask` -/

/-- C14, the claim as stated fails: `deleteTask` (and likewise `toggleTaskCompletion`)
never calls `fetchTasks`, also when its request succeeds. -/
theorem refetch_counterexample :
    ¬ ((∀ (editingTask : Option Task) (sessionUserId : String) (taskData : TaskData),
        Action.fetchTasks ∈ saveTask editingTask sessionUserId taskData none) ∧
      (∀ (toISOString : Int → String) (tasks : List Task) (taskId : Nat) (now : Int)
        (actions : List Action),
        toggleTaskCompletionActions toISOString tasks taskId now none = some actions →
        Action.fetchTasks ∈ actions) ∧
      (∀ (tasks : List Task) (taskId : Nat),
        Action.fetchTasks ∈ deleteTaskActions tasks taskId none)) := by
  rintro ⟨_, _, h⟩
  exact absurd (h [sampleTask] 1) (by decide)

/-- C14, amended: `saveTask`, when its backend request succeeds, issues the request and
then calls `fetchTasks`, and does not call it when the request fails;
`toggleTaskCompletion` and `deleteTask` set the local list, send their request and never
call `fetchTasks`, whatever the backend answers. -/
theorem refetch_amended :
    (∀ (editingTask : Option Task) (sessionUserId : String) (taskData : TaskData),
      ∃ r, saveTask editingTask sessionUserId taskData none =
        [Action.request r, Action.fetchTasks]) ∧
    (∀ (editingTask : Option Task) (sessionUserId : String) (taskData : TaskData)
      (msg : String),
      Action.fetchTasks ∉ saveTask editingTask sessionUserId taskData (some msg)) ∧
    (∀ (toISOString : Int → String) (tasks : List Task) (taskId : Nat) (now : Int)
      (backendError : Option String) (actions : List Action),
      toggleTaskCompletionActions toISOString tasks taskId now backendError = some actions →
      Action.fetchTasks ∉ actions ∧
        ∃ newTasks r, actions = [Action.setTasks newTasks, Action.request r]) ∧
    (∀ (tasks : List Task) (taskId : Nat) (backendError : Option String),
      Action.fetchTasks ∉ deleteTaskActions tasks taskId backendError ∧
        ∃ newTasks r, deleteTaskActions tasks taskId backendError =
          [Action.setTasks newTasks, Action.request r]) := by
  refine ⟨?_, ?_, ?_, ?_⟩
  · intro editingTask sessionUserId taskData
    cases editingTask with
    | none => exact ⟨_, rfl⟩
    | some t => exact ⟨_, rfl⟩
  · intro editingTask sessionUserId taskData msg
    cases editingTask <;> simp [saveTask]
  · intro toISOString tasks taskId now backendError actions h
    unfold toggleTaskCompletionActions at h
    cases ht : toggleTaskCompletion toISOString tasks taskId now with
    | none => rw [ht] at h; simp at h
    | some p =>
      obtain ⟨newTasks, r⟩ := p
      rw [ht] at h
      simp only [Option.some.injEq] at h
      subst h
      exact ⟨by simp, newTasks, r, rfl⟩
  · intro tasks taskId backendError
    exact ⟨by simp [deleteTaskActions], _, _, rfl⟩

/-- C15: `deleteTask(taskId)` sets the local task list to exactly the tasks whose id
differs from `taskId`, in their original order and each unchanged (the result is the
sublist of the list that keeps those tasks), sends the delete keyed by `taskId` after
that, and neither depends on what the backend answers. -/
theorem deleteTask_local (tasks : List Task) (taskId : Nat) (backendError : Option String) :
    deleteTaskActions tasks taskId backendError =
      [Action.setTasks (tasks.filter (fun t => t.id != taskId)),
        Action.request (TaskRequest.deleteById taskId)] ∧
    (tasks.filter (fun t => t.id != taskId)).Sublist tasks ∧
    (∀ t, t ∈ tasks.filter (fun t => t.id != taskId) ↔ t ∈ tasks ∧ t.id ≠ taskId) ∧
    (∀ other : Option String,
      deleteTaskActions tasks taskId other = deleteTaskActions tasks taskId backendError) := by
  refine ⟨rfl, List.filter_sublist _, ?_, fun _ => rfl⟩
  intro t
  simp [List.mem_filter]

/-! ## The day modal and the calendar cell -/

theorem mem_dailyTasks (tasks : List Task) (d : LocalDate) (t : Task) :
    t ∈ dailyTasks tasks (some d) ↔ t ∈ tasks ∧
      (t.startDate = JsVal.str (formatYMD d) ∨ t.endDate = JsVal.str (formatYMD d)) := by
  unfold dailyTasks
  simp [List.mem_filter]

/-- C16, the code at the failing input: a task starting 2024-01-15 with deadline
2024-01-20, looked up on 2024-01-15 (local day 19737), is listed by `DayModal` and is
not in that date's calendar cell. -/
theorem dayModal_differs_from_cell :
    formatYMD ⟨19737, 0⟩ = "2024-01-15" ∧
    rangeTask ∈ dailyTasks [rangeTask] (some ⟨19737, 0⟩) ∧
    rangeTask ∉ dayTasks [rangeTask] ⟨19737, 0⟩ ∧
    rangeTask ∉ dayTasksSorted [rangeTask] ⟨19737, 0⟩ := by
  decide

/-- C20: every task shown in a date's calendar cell (before or after the cell's sort) is
also listed by `DayModal` for that date. -/
theorem cell_subset_dayModal (tasks : List Task) (d : LocalDate) :
    (∀ t, t ∈ dayTasks tasks d → t ∈ dailyTasks tasks (some d)) ∧
    (∀ t, t ∈ dayTasksSorted tasks d → t ∈ dailyTasks tasks (some d)) := by
  have h : ∀ t, t ∈ dayTasks tasks d → t ∈ dailyTasks tasks (some d) := by
    intro t ht
    rw [mem_dayTasks] at ht
    rw [mem_dailyTasks]
    refine ⟨ht.1, ?_⟩
    by_cases hv : t.endDate.truthy = true
    · rw [if_pos hv] at ht
      exact Or.inr ht.2
    · rw [if_neg hv] at ht
      exact Or.inl ht.2
  exact ⟨h, fun t ht => h t ((mem_dayTasksSorted tasks d t).mp ht)⟩

/-! ## The mapping of `fetchTasks` -/

theorem or_or_eq (a b c : JsVal) : (a.or b).or c = firstTruthyOrLast a b c := by
  unfold JsVal.or firstTruthyOrLast
  by_cases ha : a.truthy = true
  · simp [ha]
  · by_cases hb : b.truthy = true
    · simp [ha, hb]
    · simp [ha, hb]

/-- C17: the list `fetchTasks` builds has the rows' length and order, and the task made
of a row has `startDate` the first truthy value among the row's `start_date`, `startDate`
and `startdate` (the last of them when none is truthy), `endDate` likewise from
`end_date`, `endDate`, `enddate`, `completedAt` likewise from `completed_at`,
`completedAt`, `completedat`, and every other field as in the row. -/
theorem fetchTasks_mapping (rows : List Task) :
    (formattedData (some rows)).length = rows.length ∧
    (∀ i : Nat, (formattedData (some rows))[i]? = (rows[i]?).map formatRow) ∧
    (∀ r : Task,
      (formatRow r).startDate = firstTruthyOrLast r.start_date r.startDate r.startdate ∧
      (formatRow r).endDate = firstTruthyOrLast r.end_date r.endDate r.enddate ∧
      (formatRow r).completedAt =
        firstTruthyOrLast r.completed_at r.completedAt r.completedat ∧
      (formatRow r).id = r.id ∧ (formatRow r).title = r.title ∧
      (formatRow r).description = r.description ∧ (formatRow r).completed = r.completed ∧
      (formatRow r).user_id = r.user_id ∧ (formatRow r).start_date = r.start_date ∧
      (formatRow r).end_date = r.end_date ∧ (formatRow r).completed_at = r.completed_at ∧
      (formatRow r).startdate = r.startdate ∧ (formatRow r).enddate = r.enddate ∧
      (formatRow r).completedat = r.completedat) := by
  refine ⟨?_, ?_, ?_⟩
  · simp [formattedData]
  · intro i
    simp [formattedData]
  · intro r
    refine ⟨or_or_eq _ _ _, or_or_eq _ _ _, or_or_eq _ _ _, rfl, rfl, rfl, rfl, rfl, rfl, rfl,
      rfl, rfl, rfl, rfl⟩

/-- The mapping at a concrete row: `start_date` is copied to `startDate`, the other two
keys stay unset. -/
theorem fetchTasks_sample :
    formattedData (some [sampleRow]) = [sampleTask] ∧ formattedData none = [] := by
  decide

/-! ## A missing `startDate` in the sidebar -/

theorem sortDate_missing (engine : String → Option Int) (v : JsVal) (h : v.truthy = false) :
    sortDate engine v = some maxTime := by
  unfold sortDate
  rw [h]
  rfl

/-- C18: a missing `startDate` never makes the sidebar fail. The comparator is a total
function (`none` is the number `NaN`, never an exception) and reads a task without
`startDate` as the largest time value, so it returns a proper number whenever the other
task has no `startDate` or has one the `Date` constructor accepts; `renderTaskCard`
returns `null` for a task without `startDate` without calling `parseISO` or `format`,
and it calls them only for a task that has a `startDate`. -/
theorem missing_startDate_safe (engine parseISO : String → Option Int)
    (formatMMMd : Int → String) :
    (∀ a : Task, a.startDate.truthy = false → sortDate engine a.startDate = some maxTime) ∧
    (∀ a b : Task, a.startDate.truthy = false → b.startDate.truthy = false →
      sortFn engine a b = some 0) ∧
    (∀ (a b : Task) (x : Int), a.startDate.truthy = false →
      sortDate engine b.startDate = some x →
      sortFn engine a b = some (maxTime - x) ∧ sortFn engine b a = some (x - maxTime)) ∧
    (∀ t : Task, t.startDate.truthy = false →
      renderTaskCard parseISO formatMMMd t = ⟨RenderResult.null, [], []⟩) ∧
    (∀ t : Task, ((renderTaskCard parseISO formatMMMd t).parseCalls ≠ [] ∨
        (renderTaskCard parseISO formatMMMd t).formatCalls ≠ []) →
      ∃ s, s ≠ "" ∧ t.startDate = JsVal.str s ∧
        (renderTaskCard parseISO formatMMMd t).parseCalls = [s] ∧
        (renderTaskCard parseISO formatMMMd t).formatCalls = [parseISO s]) := by
  refine ⟨?_, ?_, ?_, ?_, ?_⟩
  · intro a ha
    exact sortDate_missing engine _ ha
  · intro a b ha hb
    unfold sortFn
    rw [sortDate_missing engine _ ha, sortDate_missing engine _ hb]
    simp
  · intro a b x ha hb
    unfold sortFn
    rw [sortDate_missing engine _ ha, hb]
    exact ⟨rfl, rfl⟩
  · intro t ht
    unfold renderTaskCard
    rw [ht]
    rfl
  · intro t h
    unfold renderTaskCard at h ⊢
    cases hv : t.startDate with
    | undefined => rw [hv] at h; simp [JsVal.truthy] at h
    | null => rw [hv] at h; simp [JsVal.truthy] at h
    | str s =>
      by_cases hs : s = ""
      · subst hs
        rw [hv] at h
        simp [JsVal.truthy] at h
      · refine ⟨s, hs, rfl, ?_⟩
        cases hp : parseISO s <;> simp [JsVal.truthy, hs, hp]

/-- The sidebar at `sampleTasks`: the task without `startDate` is sorted last and
rendered as `null`, with no date parsed for it. -/
theorem missing_startDate_sample :
    (todoList noEngine sampleTasks).map
      (fun t => (renderTaskCard sampleParseISO sampleISO t).parseCalls) =
      [["2023-12-09"], ["2024-01-15"], []] := by
  decide

/-! ## The days of the month in the grid -/

theorem days_of_month_range (n : Int) :
    0 ≤ n - makeDay (yearFromDay n) (monthFromDay n) 1 ∧
      n - makeDay (yearFromDay n) (monthFromDay n) 1 < 31 := by
  have h := dateFromDay_range n
  unfold dateFromDay dayWithinYear at h
  unfold makeDay
  omega

theorem calendarDays_days (ref : LocalDate) :
    (calendarDays ref).map (fun d => d.day) =
      (List.range 42).map (fun (i : Nat) => gridStart ref + (i : Int)) := by
  rw [calendarDays_eq, List.map_map]
  rfl

theorem calendarDays_days_nodup (ref : LocalDate) :
    ((calendarDays ref).map (fun d => d.day)).Nodup := by
  rw [calendarDays_days]
  refine List.Nodup.map ?_ (List.nodup_range 42)
  intro i j hij
  simp only at hij
  omega

/-- C19: every day of the reference date's month (every day number whose year and month
are those of the reference date) occurs in the 42-cell grid exactly once, and no date
occurs in the grid twice. -/
theorem calendarDays_covers_month (ref : LocalDate) :
    (∀ n : Int, yearFromDay n = ref.getFullYear → monthFromDay n = ref.getMonth →
      ((calendarDays ref).map (fun d => d.day)).count n = 1 ∧
      (calendarDays ref).count ⟨n, 0⟩ = 1) ∧
    ((calendarDays ref).map (fun d => d.day)).Nodup ∧ (calendarDays ref).Nodup := by
  have hnd := calendarDays_days_nodup ref
  have hnd2 : (calendarDays ref).Nodup := List.Nodup.of_map _ hnd
  refine ⟨?_, hnd, hnd2⟩
  intro n hy hm
  have hr := days_of_month_range n
  have hw := weekDay_range (startOfMonth ref).day
  have hs : (startOfMonth ref).day = makeDay (yearFromDay n) (monthFromDay n) 1 := by
    rw [startOfMonth_day, hy, hm]
    rfl
  have hlo : 0 ≤ n - gridStart ref := by
    unfold gridStart
    omega
  have hhi : n - gridStart ref < 42 := by
    unfold gridStart
    omega
  have hmem : n ∈ (calendarDays ref).map (fun d => d.day) := by
    rw [calendarDays_days, List.mem_map]
    refine ⟨(n - gridStart ref).toNat, List.mem_range.mpr (by omega), ?_⟩
    omega
  have hmem2 : (⟨n, 0⟩ : LocalDate) ∈ calendarDays ref := by
    rw [calendarDays_eq, List.mem_map]
    refine ⟨(n - gridStart ref).toNat, List.mem_range.mpr (by omega), ?_⟩
    congr 1
    omega
  exact ⟨List.count_eq_one_of_mem hnd hmem, List.count_eq_one_of_mem hnd2 hmem2⟩

/-! ## The two password policies -/

/-- C21: the password policy of the set-new-password screen (`App.jsx`, over
`newPassword`) and the policy of the sign-up form (`auth.jsx`, over `password`) are the
same predicate, requirement by requirement. -/
theorem password_policies_agree (s : String) :
    (App.isPasswordValid s = true ↔ Auth.isPasswordValid s = true) ∧
    App.requirements s = Auth.requirements s := by
  have h : App.requirements s = Auth.requirements s := rfl
  refine ⟨?_, h⟩
  unfold App.isPasswordValid Auth.isPasswordValid
  rw [h]

/-! ## The frame of `toggleTaskCompletion` -/

theorem find_isSome_of_mem (tasks : List Task) (taskId : Nat)
    (h : ∃ t ∈ tasks, t.id = taskId) :
    ∃ task, tasks.find? (fun t => t.id == taskId) = some task := by
  obtain ⟨t, ht, hid⟩ := h
  cases hf : tasks.find? (fun t => t.id == taskId) with
  | some task => exact ⟨task, rfl⟩
  | none =>
    rw [List.find?_eq_none] at hf
    exact absurd (by simpa using hid) (hf t ht)

/-- C22: when the list contains a task with id `taskId`, `toggleTaskCompletion(taskId)`
returns a list of the same length in which every position holds the task that was there
before: unchanged when its id differs from `taskId`, and otherwise equal to it in every
field other than `completed` and `completedAt`. -/
theorem toggleTaskCompletion_frame (toISOString : Int → String) (tasks : List Task)
    (taskId : Nat) (now : Int) (h : ∃ t ∈ tasks, t.id = taskId) :
    ∃ newTasks r, toggleTaskCompletion toISOString tasks taskId now = some (newTasks, r) ∧
      newTasks.length = tasks.length ∧
      ∀ (i : Nat) (t : Task), tasks[i]? = some t →
        ∃ t', newTasks[i]? = some t' ∧ (t.id ≠ taskId → t' = t) ∧
          t'.id = t.id ∧ t'.title = t.title ∧ t'.description = t.description ∧
          t'.user_id = t.user_id ∧ t'.start_date = t.start_date ∧
          t'.end_date = t.end_date ∧ t'.completed_at = t.completed_at ∧
          t'.startDate = t.startDate ∧ t'.endDate = t.endDate ∧
          t'.startdate = t.startdate ∧ t'.enddate = t.enddate ∧
          t'.completedat = t.completedat := by
  obtain ⟨task, hf⟩ := find_isSome_of_mem tasks taskId h
  unfold toggleTaskCompletion
  rw [hf]
  refine ⟨_, _, rfl, by simp, ?_⟩
  intro i t hi
  rw [List.getElem?_map, hi]
  by_cases hid : t.id = taskId
  · refine ⟨_, by simp only [Option.map_some']; rfl, fun hne => absurd hid hne, ?_⟩
    simp [hid]
  · refine ⟨t, by simp [hid], fun _ => rfl, rfl, rfl, rfl, rfl, rfl, rfl, rfl, rfl, rfl, rfl,
      rfl, rfl⟩

/-- The frame of the toggle at a concrete list: the second of three tasks is toggled. -/
theorem toggleTaskCompletion_frame_witness :
    (∃ t ∈ sampleTasks, t.id = 2) ∧
    ∃ newTasks r, toggleTaskCompletion sampleISO sampleTasks 2 0 = some (newTasks, r) ∧
      newTasks.length = sampleTasks.length ∧
      ∀ (i : Nat) (t : Task), sampleTasks[i]? = some t →
        ∃ t', newTasks[i]? = some t' ∧ (t.id ≠ 2 → t' = t) ∧
          t'.id = t.id ∧ t'.title = t.title ∧ t'.description = t.description ∧
          t'.user_id = t.user_id ∧ t'.start_date = t.start_date ∧
          t'.end_date = t.end_date ∧ t'.completed_at = t.completed_at ∧
          t'.startDate = t.startDate ∧ t'.endDate = t.endDate ∧
          t'.startdate = t.startdate ∧ t'.enddate = t.enddate ∧
          t'.completedat = t.completedat :=
  ⟨⟨{ sampleTask with id := 2, startDate := JsVal.str "2024-01-15" }, by decide, rfl⟩,
    toggleTaskCompletion_frame sampleISO sampleTasks 2 0
      ⟨{ sampleTask with id := 2, startDate := JsVal.str "2024-01-15" }, by decide, rfl⟩⟩

/-! ## Double arithmetic: the two loops and the rounding -/

theorem scaleDown_small (fuel num den : Nat) (e : Int) (h : num / den < 2 ^ 53) :
    scaleDown fuel num den e = (num, den, e) := by
  cases fuel with
  | zero => rfl
  | succ k =>
    unfold scaleDown
    rw [if_neg (by omega)]

theorem scaleUp_spec (den : Nat) (hden : 0 < den) :
    ∀ (fuel num : Nat) (e : Int), 2 ^ 52 * den ≤ 2 ^ fuel * num →
      ∃ k : Nat, k ≤ fuel ∧ scaleUp fuel num den e = (2 ^ k * num, den, e - (k : Int)) ∧
        2 ^ 52 ≤ 2 ^ k * num / den := by
  intro fuel
  induction fuel with
  | zero =>
    intro num e h
    refine ⟨0, le_refl _, ?_, ?_⟩
    · simp [scaleUp]
    · rw [Nat.le_div_iff_mul_le hden]
      simpa using h
  | succ f ih =>
    intro num e h
    by_cases hlt : num / den < 2 ^ 52
    · have h' : 2 ^ (f + 1) * num = 2 ^ f * (2 * num) := by ring
      rw [h'] at h
      obtain ⟨k, hk, hs, hq⟩ := ih (2 * num) (e - 1) h
      refine ⟨k + 1, by omega, ?_, ?_⟩
      · unfold scaleUp
        rw [if_pos hlt, hs]
        have : 2 ^ k * (2 * num) = 2 ^ (k + 1) * num := by ring
        rw [this]
        congr 2
        push_cast
        ring
      · have : 2 ^ (k + 1) * num = 2 ^ k * (2 * num) := by ring
        rw [this]
        exact hq
    · refine ⟨0, by omega, ?_, ?_⟩
      · unfold scaleUp
        rw [if_neg hlt]
        simp
      · simpa using not_lt.mp hlt

/-- The shape of `roundToDouble` on a positive quotient below `2 ^ 53`: the numerator is
doubled `k` times until the quotient reaches `2 ^ 52`, and the quotient is rounded to
the nearest integer, ties to even. -/
theorem roundToDouble_spec (num den : Nat) (hnum : 0 < num) (hden : 0 < den)
    (hsmall : num / den < 2 ^ 53) (hfuel : 2 ^ 52 * den ≤ 2 ^ 2200 * num) :
    ∃ k : Nat, k ≤ 2200 ∧ 2 ^ 52 ≤ 2 ^ k * num / den ∧
      roundToDouble num den =
        (if 2 * (2 ^ k * num % den) > den ∨
            (2 * (2 ^ k * num % den) = den ∧ (2 ^ k * num / den) % 2 = 1) then
          ⟨2 ^ k * num / den + 1, -(k : Int)⟩
        else ⟨2 ^ k * num / den, -(k : Int)⟩) := by
  obtain ⟨k, hk, hs, hq⟩ := scaleUp_spec den hden 2200 num 0 hfuel
  refine ⟨k, hk, hq, ?_⟩
  unfold roundToDouble
  rw [if_neg (by omega), scaleDown_small _ _ _ _ hsmall]
  simp only [hs, zero_sub]

/-- The rounding error of `roundToDouble`: the mantissa is at least `2 ^ 52` and at most
half a unit above the exact scaled quotient. -/
theorem roundToDouble_bounds (num den : Nat) (hnum : 0 < num) (hden : 0 < den)
    (hsmall : num / den < 2 ^ 53) (hfuel : 2 ^ 52 * den ≤ 2 ^ 2200 * num) :
    ∃ k m : Nat, k ≤ 2200 ∧ roundToDouble num den = ⟨m, -(k : Int)⟩ ∧
      2 ^ 52 * den ≤ 2 ^ k * num ∧ 2 ^ 52 ≤ m ∧ 2 * m * den ≤ 2 * (2 ^ k * num) + den := by
  obtain ⟨k, hk, hq, hr⟩ := roundToDouble_spec num den hnum hden hsmall hfuel
  have hdm := Nat.div_add_mod (2 ^ k * num) den
  have hmod := Nat.mod_lt (2 ^ k * num) hden
  have hq2 : 2 ^ 52 * den ≤ 2 ^ k * num := (Nat.le_div_iff_mul_le hden).mp hq
  split_ifs at hr with hc
  · refine ⟨k, 2 ^ k * num / den + 1, hk, hr, hq2, by omega, ?_⟩
    have h2 : den ≤ 2 * (2 ^ k * num % den) := by omega
    have h3 : 2 * (2 ^ k * num / den + 1) * den =
        2 * (den * (2 ^ k * num / den)) + 2 * den := by ring
    omega
  · refine ⟨k, 2 ^ k * num / den, hk, hr, hq2, hq, ?_⟩
    have h3 : 2 * (2 ^ k * num / den) * den = 2 * (den * (2 ^ k * num / den)) := by ring
    omega

theorem mulNat_neg (m k c : Nat) (hk : 0 < k) :
    (⟨m, -(k : Int)⟩ : Double).mulNat c = roundToDouble (m * c) (2 ^ k) := by
  unfold Double.mulNat
  rw [if_neg (by simp only [ge_iff_le]; omega)]
  simp

theorem mathRound_hundred (m j : Nat) (h : mathRound ⟨m, -(j : Int)⟩ = 100) :
    199 * 2 ^ j ≤ 2 * m := by
  unfold mathRound at h
  by_cases hj : j = 0
  · subst hj
    simp at h
    omega
  · rw [if_neg (by simp only [ge_iff_le]; omega)] at h
    simp only [neg_neg, Int.toNat_ofNat] at h
    have h1 := Nat.div_mul_le_self (2 * m + 2 ^ j) (2 ^ (j + 1))
    rw [h, pow_succ] at h1
    omega

theorem percent_arith (J K m m' c t : Nat) (h1 : 199 * J ≤ 2 * m')
    (h2 : 2 * m' * K ≤ 2 * (J * (m * 100)) + K) (h3 : 2 * m * t ≤ 2 * (K * c) + t)
    (h4 : c < t) (h5 : t < 200) (hK : 2 ^ 53 ≤ K) (hJ : 2 ^ 52 ≤ 100 * J) : False := by
  have a1 : 199 * J * K ≤ 2 * m' * K := Nat.mul_le_mul_right K h1
  have a2 : 199 * J * K * t ≤ (2 * (J * (m * 100)) + K) * t :=
    Nat.mul_le_mul_right t (a1.trans h2)
  have a3 : J * 100 * (2 * m * t) ≤ J * 100 * (2 * (K * c) + t) := Nat.mul_le_mul_left _ h3
  have a4 : J * K * (c + 1) ≤ J * K * t := Nat.mul_le_mul_left _ h4
  have a5 : J * K * t ≤ J * K * 199 := Nat.mul_le_mul_left _ (by omega)
  have a6 : J * t ≤ J * 199 := Nat.mul_le_mul_left _ (by omega)
  have a7 : K * t ≤ K * 199 := Nat.mul_le_mul_left _ (by omega)
  have a8 : 2 ^ 53 * J ≤ K * J := Nat.mul_le_mul_right J hK
  have a9 : 2 ^ 52 * K ≤ 100 * J * K := Nat.mul_le_mul_right K hJ
  have hJ0 : 0 < J := by omega
  have hK0 : 0 < K := by omega
  zify at *
  nlinarith

theorem pow_60_le_2200 : (2 : Nat) ^ 60 ≤ 2 ^ 2200 :=
  pow_le_pow_right₀ (show 1 ≤ 2 by decide) (show 60 ≤ 2200 by decide)

/-- With every task completed the double is exactly 100: `(t / t) * 100`. -/
theorem percent_all_completed (t : Nat) (ht : 0 < t) :
    mathRound ((Double.ofQuotient t t).mulNat 100) = 100 := by
  have hp := pow_60_le_2200
  obtain ⟨k, hk, hq, hr⟩ := roundToDouble_spec t t ht ht
    (by rw [Nat.div_self ht]; decide)
    (Nat.mul_le_mul_right t (le_trans (Nat.pow_le_pow_right (by decide) (by decide)) hp))
  rw [Nat.mul_div_cancel _ ht] at hq hr
  rw [Nat.mul_mod_left, if_neg (by omega)] at hr
  have hk0 : 0 < k := by
    rcases Nat.eq_zero_or_pos k with h0 | h0
    · subst h0
      simp at hq
    · exact h0
  have hK : 0 < 2 ^ k := pow_pos (by decide) _
  unfold Double.ofQuotient
  rw [hr, mulNat_neg _ _ _ hk0]
  obtain ⟨j, hj, hq', hr'⟩ := roundToDouble_spec (2 ^ k * 100) (2 ^ k) (by omega) hK
    (by rw [Nat.mul_div_cancel_left _ hK]; decide)
    (by
      have h1 : 2 ^ 52 * 2 ^ k ≤ 2 ^ 2200 * 2 ^ k :=
        Nat.mul_le_mul_right _ (le_trans (Nat.pow_le_pow_right (by decide) (by decide)) hp)
      have h2 : 2 ^ 2200 * (2 ^ k * 100) = 2 ^ 2200 * 2 ^ k * 100 := by ring
      omega)
  have e1 : 2 ^ j * (2 ^ k * 100) = 2 ^ j * 100 * 2 ^ k := by ring
  rw [e1, Nat.mul_div_cancel _ hK] at hq' hr'
  rw [Nat.mul_mod_left, if_neg (by omega)] at hr'
  have hj0 : 0 < j := by
    rcases Nat.eq_zero_or_pos j with h0 | h0
    · subst h0
      simp at hq'
    · exact h0
  rw [hr']
  unfold mathRound
  rw [if_neg (by simp only [ge_iff_le]; omega)]
  simp only [neg_neg, Int.toNat_ofNat]
  have hJ : 0 < 2 ^ j := pow_pos (by decide) _
  rw [pow_succ]
  apply Nat.div_eq_of_lt_le <;> omega

theorem percent_none_completed (t : Nat) :
    mathRound ((Double.ofQuotient 0 t).mulNat 100) = 0 := by
  have h : Double.ofQuotient 0 t = ⟨0, 0⟩ := by
    unfold Double.ofQuotient roundToDouble
    rfl
  rw [h]
  decide

/-- With fewer than 200 tasks and one of them not completed, the double `(c / t) * 100`
stays below 99.5, so the percentage is not 100. -/
theorem percent_not_hundred (c t : Nat) (hc : c < t) (ht : t < 200) :
    mathRound ((Double.ofQuotient c t).mulNat 100) ≠ 100 := by
  rcases Nat.eq_zero_or_pos c with h0 | hpos
  · subst h0
    rw [percent_none_completed]
    decide
  intro hround
  have hp := pow_60_le_2200
  obtain ⟨k, m, hk, hx, hq, hm, hb⟩ := roundToDouble_bounds c t hpos (by omega)
    (by rw [Nat.div_eq_of_lt hc]; decide)
    (by
      have h1 : 2 ^ 52 * t ≤ 2 ^ 52 * 2 ^ 8 := Nat.mul_le_mul_left _ (by omega)
      have h2 : (2 : Nat) ^ 52 * 2 ^ 8 = 2 ^ 60 := by decide
      have h3 : 2 ^ 2200 * 1 ≤ 2 ^ 2200 * c := Nat.mul_le_mul_left _ hpos
      omega)
  have hKc : 2 ^ k * (c + 1) ≤ 2 ^ k * t := Nat.mul_le_mul_left _ hc
  have hK0 : 0 < 2 ^ k := pow_pos (by decide) _
  have hK : 2 ^ 53 ≤ 2 ^ k := by
    have h1 : 2 ^ 52 < 2 ^ k := by
      by_contra hle
      have h2 : 2 ^ k * t ≤ 2 ^ 52 * t := Nat.mul_le_mul_right t (not_lt.mp hle)
      have h3 : 2 ^ k * (c + 1) = 2 ^ k * c + 2 ^ k := by ring
      omega
    have h4 : 52 < k := (Nat.pow_lt_pow_iff_right (by decide)).mp h1
    exact Nat.pow_le_pow_right (by decide) h4
  have hk0 : 0 < k := by
    rcases Nat.eq_zero_or_pos k with h0 | h0
    · subst h0
      simp at hK
    · exact h0
  have hmK : m ≤ 2 ^ k := by
    by_contra hgt
    have h1 : 2 * (2 ^ k + 1) * t ≤ 2 * m * t :=
      Nat.mul_le_mul_right t (Nat.mul_le_mul_left 2 (by omega))
    have h2 : 2 * (2 ^ k + 1) * t = 2 * (2 ^ k * t) + 2 * t := by ring
    have h3 : 2 ^ k * (c + 1) = 2 ^ k * c + 2 ^ k := by ring
    omega
  unfold Double.ofQuotient at hround
  rw [hx, mulNat_neg _ _ _ hk0] at hround
  have hm100 : m * 100 ≤ 100 * 2 ^ k := by omega
  obtain ⟨j, m', hj, hy, hq', hm', hb'⟩ := roundToDouble_bounds (m * 100) (2 ^ k) (by omega) hK0
    (by
      rw [Nat.div_lt_iff_lt_mul hK0]
      have h1 : 100 * 2 ^ k < 2 ^ 53 * 2 ^ k := Nat.mul_lt_mul_of_pos_right (by decide) hK0
      omega)
    (by
      have h1 : 2 ^ k ≤ 2 ^ 2200 := pow_le_pow_right₀ (show 1 ≤ 2 by decide) hk
      have h2 : 2 ^ 52 * 2 ^ k ≤ m * 2 ^ 2200 := Nat.mul_le_mul hm h1
      have h3 : 2 ^ 2200 * (m * 100) = 100 * (m * 2 ^ 2200) := by ring
      omega)
  rw [hy] at hround
  have h199 := mathRound_hundred m' j hround
  have hJ : 2 ^ 52 ≤ 100 * 2 ^ j := by
    have h1 : 2 ^ j * (m * 100) ≤ 2 ^ j * (100 * 2 ^ k) := Nat.mul_le_mul_left _ hm100
    have h2 : 2 ^ j * (100 * 2 ^ k) = 100 * 2 ^ j * 2 ^ k := by ring
    have h3 : 2 ^ 52 * 2 ^ k ≤ 100 * 2 ^ j * 2 ^ k := by omega
    exact Nat.le_of_mul_le_mul_right h3 hK0
  exact percent_arith (2 ^ j) (2 ^ k) m m' c t h199 hb' hb hc ht hK hJ

/-! ## The percentage 100 -/

theorem percentage_eq (tasks : List Task) (h : tasks ≠ []) :
    percentage tasks = mathRound ((Double.ofQuotient
      (tasks.filter (fun t => t.completed)).length tasks.length).mulNat 100) := by
  unfold percentage
  simp only
  rw [if_neg (by simpa using h)]

/-- C23, the claim as stated fails: with 199 of 200 tasks completed the double
`(199 / 200) * 100` is 99.5 and `Math.round` gives 100, although one task is not
completed. -/
theorem percentage_hundred_counterexample :
    ¬ (∀ tasks : List Task, tasks ≠ [] →
      (percentage tasks = 100 ↔ ∀ t ∈ tasks, t.completed = true)) := by
  intro h
  have hne : twoHundredTasks ≠ [] := by
    unfold twoHundredTasks
    exact List.append_ne_nil_of_right_ne_nil _ (List.cons_ne_nil _ _)
  have hlen : twoHundredTasks.length = 200 := by
    unfold twoHundredTasks
    rw [List.length_append, List.length_replicate]
    rfl
  have hdone : (twoHundredTasks.filter (fun t => t.completed)).length = 199 := by
    have h1 : [sampleTask].filter (fun t => t.completed) = [] := by decide
    have h2 : completedTask.completed = true := rfl
    unfold twoHundredTasks
    rw [List.filter_append, List.filter_replicate, h1, if_pos h2, List.append_nil,
      List.length_replicate]
  have hp : percentage twoHundredTasks = 100 := by
    rw [percentage_eq _ hne, hlen, hdone]
    decide
  have hall := (h twoHundredTasks hne).mp hp sampleTask
    (List.mem_append_right _ (List.mem_singleton_self _))
  exact absurd hall (by decide)

/-- C23, amended: for every non-empty task list in which every task is completed the
percentage is 100, and for every non-empty list of fewer than 200 tasks the percentage
is 100 if and only if every task is completed. -/
theorem percentage_hundred_amended :
    (∀ tasks : List Task, tasks ≠ [] → (∀ t ∈ tasks, t.completed = true) →
      percentage tasks = 100) ∧
    (∀ tasks : List Task, tasks ≠ [] → tasks.length < 200 →
      (percentage tasks = 100 ↔ ∀ t ∈ tasks, t.completed = true)) := by
  have hall : ∀ tasks : List Task, tasks ≠ [] → (∀ t ∈ tasks, t.completed = true) →
      percentage tasks = 100 := by
    intro tasks hne h
    rw [percentage_eq _ hne, List.filter_length_eq_length.mpr h]
    exact percent_all_completed _ (List.length_pos.mpr hne)
  refine ⟨hall, ?_⟩
  intro tasks hne hlen
  refine ⟨?_, hall tasks hne⟩
  intro hp
  by_contra hnot
  have hle := List.length_filter_le (fun t : Task => t.completed) tasks
  have hneq : (tasks.filter (fun t => t.completed)).length ≠ tasks.length :=
    fun heq => hnot (List.filter_length_eq_length.mp heq)
  rw [percentage_eq _ hne] at hp
  exact percent_not_hundred _ _ (by omega) hlen hp

end Taskendar
